import Mathlib

/-!
# journalbeat: the metrics-delta reporter of `libbeat/logp/metrics.go`

A shallow embedding of `snapshotDelta`, `formatMetrics`, `formatMetricsHttp`
and `noMetrics`, and the properties of them that the specification states.

Conventions of the embedding:

* a Go `string` is a Lean `String`; Go compares strings byte-wise, which for
  UTF-8 text is the order of the code points, so `stringLess` compares the
  code points of the two strings lexicographically;
* a Go `int64` is an `Int` inside `[-2^63, 2^63)` (`Int64`), and arithmetic
  wraps around with `wrapInt64`;
* a Go `float64` is an IEEE-754 binary64 value (`Float64`), NaN payloads not
  told apart; subtraction rounds to nearest, ties to even;
* a Go `map[string]T` is the list of its entries in the order a `range` loop
  visits them, with pairwise distinct keys (`GoMap`); every theorem
  quantifies over all such lists, hence over every iteration order.
-/

namespace Journalbeat

/-! ## Machine numbers -/

/-- Wrap an integer into the range of a two's-complement 64-bit integer. -/
def wrapInt64 (x : Int) : Int :=
  (x + 9223372036854775808) % 18446744073709551616 - 9223372036854775808

/-- Go's `int64`: an integer in `[-2^63, 2^63)`. -/
structure Int64 where
  val : Int
  lo : -9223372036854775808 ≤ val
  hi : val < 9223372036854775808
  deriving DecidableEq

namespace Int64

/-- The `int64` an integer wraps to. -/
def ofInt (x : Int) : Int64 :=
  ⟨wrapInt64 x, by unfold wrapInt64; omega, by unfold wrapInt64; omega⟩

/-- Go's `i - p` on `int64`: subtraction with wrap-around. -/
def sub (a b : Int64) : Int64 := ofInt (a.val - b.val)

/-- Go's `i + p` on `int64`: addition with wrap-around. -/
def add (a b : Int64) : Int64 := ofInt (a.val + b.val)

/-- The zero value of `int64`. -/
def zero : Int64 := ⟨0, by decide, by decide⟩

end Int64

/-- Go's `float64`: an IEEE-754 binary64 value. `fin neg e f` has sign `neg`,
biased exponent `e` (`0` for zeros and subnormals) and fraction `f`. -/
inductive Float64 where
  | nan : Float64
  | inf (neg : Bool) : Float64
  | fin (neg : Bool) (e : Fin 2047) (f : Fin 4503599627370496) : Float64
  deriving DecidableEq

namespace Float64

/-- The zero value of `float64`, `+0`. -/
def zero : Float64 := .fin false 0 0

/-- The magnitude of a finite value, in units of `2^-1074`. -/
def magnitude (e : Fin 2047) (f : Fin 4503599627370496) : Nat :=
  if e.val = 0 then f.val else (4503599627370496 + f.val) * 2 ^ (e.val - 1)

/-- The finite value as an integer number of units of `2^-1074`. -/
def toUnits (neg : Bool) (e : Fin 2047) (f : Fin 4503599627370496) : Int :=
  if neg then -(magnitude e f : Int) else (magnitude e f : Int)

/-- Round a magnitude, in units of `2^-1074`, to the nearest binary64 value,
ties to even; a magnitude too large rounds to infinity. -/
def round (neg : Bool) (a : Nat) : Float64 :=
  if h : a < 4503599627370496 then .fin neg 0 ⟨a, h⟩
  else
    let shift := Nat.log2 a - 52
    let m := a / 2 ^ shift
    let r := a % 2 ^ shift
    let half := 2 ^ shift / 2
    let up : Bool := decide (half < r) || (decide (r = half) && decide (0 < shift) && decide (m % 2 = 1))
    let m1 := if up then m + 1 else m
    let e := if m1 = 9007199254740992 then shift + 2 else shift + 1
    let m2 := if m1 = 9007199254740992 then 4503599627370496 else m1
    if e < 2047 then
      .fin neg ⟨e % 2047, Nat.mod_lt _ (by decide)⟩
        ⟨(m2 - 4503599627370496) % 4503599627370496, Nat.mod_lt _ (by decide)⟩
    else .inf neg

/-- Go's `f - p` on `float64`. -/
def sub : Float64 → Float64 → Float64
  | .nan, _ => .nan
  | _, .nan => .nan
  | .inf a, .inf b => if a = b then .nan else .inf a
  | .inf a, .fin _ _ _ => .inf a
  | .fin _ _ _, .inf b => .inf (!b)
  | .fin s1 e1 f1, .fin s2 e2 f2 =>
    let d := toUnits s1 e1 f1 - toUnits s2 e2 f2
    if d = 0 then .fin (s1 && !s2) 0 0
    else round (decide (d < 0)) d.natAbs

/-- Whether a finite value is a zero (`+0` or `-0`). -/
def isZero : Float64 → Bool
  | .fin _ e f => decide (e.val = 0) && decide (f.val = 0)
  | _ => false

/-- Go's `p != f` on `float64`: NaN differs from everything, itself included,
and the two zeros are equal. -/
def ne : Float64 → Float64 → Bool
  | .nan, _ => true
  | _, .nan => true
  | x, y => !(decide (x = y) || (isZero x && isZero y))

end Float64

/-! ## Strings and maps -/

/-- Lexicographic comparison of two lists of characters by code point. -/
def charsLess : List Char → List Char → Bool
  | [], [] => false
  | [], _ :: _ => true
  | _ :: _, [] => false
  | a :: as, b :: bs =>
    if a.toNat < b.toNat then true
    else if b.toNat < a.toNat then false
    else charsLess as bs

/-- Go's `a < b` on strings. -/
def stringLess (a b : String) : Bool := charsLess a.data b.data

/-- Go's `a <= b` on strings, the order `sort.Strings` sorts by. -/
def stringLe (a b : String) : Bool := !stringLess b a

/-- Go's `sort.Strings`: the keys in ascending order. -/
def sortStrings (keys : List String) : List String :=
  List.insertionSort (fun a b => stringLe a b = true) keys

/-- The entries of a map after `m[k] = v`: an existing key keeps its place, a
new key goes to the end. -/
def setEntry {α : Type} (k : String) (v : α) : List (String × α) → List (String × α)
  | [] => [(k, v)]
  | (k1, v1) :: rest => if k1 = k then (k, v) :: rest else (k1, v1) :: setEntry k v rest

/-- Go's `map[string]α`: its entries in iteration order, keys distinct. -/
structure GoMap (α : Type) where
  entries : List (String × α)
  nodup : (entries.map Prod.fst).Nodup

namespace GoMap

variable {α : Type}

/-- The map literal `map[string]α{}`. -/
def empty : GoMap α := ⟨[], List.nodup_nil⟩

/-- The two-valued lookup `v, ok := m[k]`. -/
def get? (m : GoMap α) (k : String) : Option α := m.entries.lookup k

/-- Whether `k` is a key of the map. -/
def contains (m : GoMap α) (k : String) : Bool := (m.get? k).isSome

/-- The keys in iteration order, what `for key := range m` collects. -/
def keys (m : GoMap α) : List String := m.entries.map Prod.fst

/-- Go's `len(m)`. -/
def len (m : GoMap α) : Nat := m.entries.length

/-- The assignment `m[k] = v`. -/
def set (m : GoMap α) (k : String) (v : α) : GoMap α :=
  ⟨setEntry k v m.entries, by
    have key : ∀ l : List (String × α), ∀ x, x ∈ (setEntry k v l).map Prod.fst →
        x = k ∨ x ∈ l.map Prod.fst := by
      intro l
      induction l with
      | nil => intro x hx; simp [setEntry] at hx; exact Or.inl hx
      | cons p rest ih =>
        obtain ⟨k1, v1⟩ := p
        intro x hx
        by_cases hk : k1 = k
        · simp [setEntry, hk] at hx
          rcases hx with h | h
          · exact Or.inl h
          · right; simp; right; exact h
        · simp [setEntry, hk] at hx
          rcases hx with h | h
          · right; simp [h]
          · rcases ih x (by simpa using h) with h1 | h1
            · exact Or.inl h1
            · right; simp at h1 ⊢; right; exact h1
    have main : ∀ l : List (String × α), (l.map Prod.fst).Nodup →
        ((setEntry k v l).map Prod.fst).Nodup := by
      intro l
      induction l with
      | nil => intro _; simp [setEntry]
      | cons p rest ih =>
        obtain ⟨k1, v1⟩ := p
        intro hnd
        rw [List.map_cons, List.nodup_cons] at hnd
        by_cases hk : k1 = k
        · subst hk
          simp only [setEntry, if_true, List.map_cons, List.nodup_cons]
          exact hnd
        · simp only [setEntry, hk, if_false, List.map_cons, List.nodup_cons]
          refine ⟨fun hmem => ?_, ih hnd.2⟩
          rcases key rest k1 hmem with h | h
          · exact hk h
          · exact hnd.1 h
    exact main m.entries m.nodup⟩

end GoMap

/-! ## Snapshots and deltas -/

/-- Modelled from the spec: the type `monitoring.FlatSnapshot`, declared in the
vendored `monitoring` package, which is not among the sources. A snapshot is
four mappings: name to bool, name to string, name to integer, name to float. -/
structure FlatSnapshot where
  Bools : GoMap Bool
  Strings : GoMap String
  Ints : GoMap Int64
  Floats : GoMap Float64

/-- Modelled from the spec: `monitoring.MakeFlatSnapshot()`, the all-empty
snapshot the totals report compares against. -/
def MakeFlatSnapshot : FlatSnapshot := ⟨GoMap.empty, GoMap.empty, GoMap.empty, GoMap.empty⟩

/-- A value of Go's `interface{}` as the delta maps hold it; `null` is the nil
interface a lookup of a missing key returns. -/
inductive Value where
  | bool (b : Bool) : Value
  | str (s : String) : Value
  | int (i : Int64) : Value
  | float (f : Float64) : Value
  | null : Value
  deriving DecidableEq

/-- The single-valued lookup `m[k]` on `map[string]interface{}`: nil when the
key is missing. -/
def index (m : GoMap Value) (k : String) : Value := (m.get? k).getD Value.null

/-- The single-valued lookup `prev.Ints[k]`: zero when the key is missing. -/
def indexInt (m : GoMap Int64) (k : String) : Int64 := (m.get? k).getD Int64.zero

/-- The single-valued lookup `prev.Floats[k]`: `+0` when the key is missing. -/
def indexFloat (m : GoMap Float64) (k : String) : Float64 := (m.get? k).getD Float64.zero

/-- The two-valued lookup `p, ok := m[k]`: the zero value and `false` when the
key is missing. -/
def commaOk {α : Type} (zero : α) (m : GoMap α) (k : String) : α × Bool :=
  match m.get? k with
  | some p => (p, true)
  | none => (zero, false)

/-- The test `p, ok := prev.Bools[k]; !ok || p != b`. -/
def boolChanged (prev : FlatSnapshot) (k : String) (b : Bool) : Bool :=
  let pok := commaOk false prev.Bools k
  !pok.2 || pok.1 != b

/-- The test `p, ok := prev.Strings[k]; !ok || p != s`. -/
def stringChanged (prev : FlatSnapshot) (k : String) (s : String) : Bool :=
  let pok := commaOk "" prev.Strings k
  !pok.2 || pok.1 != s

/-- The test `p := prev.Ints[k]; p != i`. -/
def intChanged (prev : FlatSnapshot) (k : String) (i : Int64) : Bool :=
  indexInt prev.Ints k != i

/-- The test `p := prev.Floats[k]; p != f`. -/
def floatChanged (prev : FlatSnapshot) (k : String) (f : Float64) : Bool :=
  Float64.ne (indexFloat prev.Floats k) f

/-- One pass of the loop over `cur.Bools`. -/
def boolStep (prev : FlatSnapshot) (out : GoMap Value) (kb : String × Bool) : GoMap Value :=
  if boolChanged prev kb.1 kb.2 then out.set kb.1 (Value.bool kb.2) else out

/-- One pass of the loop over `cur.Strings`. -/
def stringStep (prev : FlatSnapshot) (out : GoMap Value) (ks : String × String) : GoMap Value :=
  if stringChanged prev ks.1 ks.2 then out.set ks.1 (Value.str ks.2) else out

/-- One pass of the loop over `cur.Ints`. -/
def intStep (prev : FlatSnapshot) (out : GoMap Value) (ki : String × Int64) : GoMap Value :=
  if intChanged prev ki.1 ki.2 then
    out.set ki.1 (Value.int (Int64.sub ki.2 (indexInt prev.Ints ki.1)))
  else out

/-- One pass of the loop over `cur.Floats`. -/
def floatStep (prev : FlatSnapshot) (out : GoMap Value) (kf : String × Float64) : GoMap Value :=
  if floatChanged prev kf.1 kf.2 then
    out.set kf.1 (Value.float (Float64.sub kf.2 (indexFloat prev.Floats kf.1)))
  else out

/-- The function `snapshotDelta`: the four loops in the order of the source. -/
def snapshotDelta (prev cur : FlatSnapshot) : GoMap Value :=
  let out : GoMap Value := GoMap.empty
  let out := cur.Bools.entries.foldl (boolStep prev) out
  let out := cur.Strings.entries.foldl (stringStep prev) out
  let out := cur.Ints.entries.foldl (intStep prev) out
  let out := cur.Floats.entries.foldl (floatStep prev) out
  out

/-! ## Formatters -/

/-- The decimal rendering of an `int64`, what `fmt.Sprintf("%v", i)` returns. -/
def formatInt (i : Int64) : String :=
  if i.val < 0 then "-" ++ Nat.repr i.val.natAbs else Nat.repr i.val.natAbs

/-- The call `fmt.Sprintf("%v", v)` on a delta value. The rendering of a
`float64` belongs to Go's `fmt` package and is the parameter `fmtFloat`. -/
def sprintV (fmtFloat : Float64 → String) : Value → String
  | Value.bool b => if b then "true" else "false"
  | Value.str s => s
  | Value.int i => formatInt i
  | Value.float f => fmtFloat f
  | Value.null => "<nil>"

/-- The function `formatMetrics`. -/
def formatMetrics (fmtFloat : Float64 → String) (ms : GoMap Value) : String :=
  let keys := ms.keys
  let keys := sortStrings keys
  keys.foldl (fun buf key => buf ++ " " ++ key ++ "=" ++ sprintV fmtFloat (index ms key)) ""

/-- The `switch key` of `formatMetricsHttp`: a whitelisted key copies the
delta's value into `mkeys`, any other key does nothing. -/
def switchKey (ms : GoMap Value) (mkeys : GoMap Value) (key : String) : GoMap Value :=
  if key = "libbeat.logstash.publish.read_bytes" then mkeys.set key (index ms key)
  else if key = "libbeat.logstash.publish.write_bytes" then mkeys.set key (index ms key)
  else if key = "libbeat.logstash.call_count.PublishEvents" then mkeys.set key (index ms key)
  else if key = "libbeat.logstash.published_and_acked_events" then mkeys.set key (index ms key)
  else if key = "libbeat.publisher.messages_in_worker_queues" then mkeys.set key (index ms key)
  else if key = "libbeat.publisher.published_events" then mkeys.set key (index ms key)
  else mkeys

/-- The map `mkeys` of `formatMetricsHttp` after its six assignments. -/
def initialMkeys : GoMap Value :=
  let mkeys : GoMap Value := GoMap.empty
  let mkeys := mkeys.set "libbeat.logstash.publish.read_bytes" (Value.str "0")
  let mkeys := mkeys.set "libbeat.logstash.publish.write_bytes" (Value.str "0")
  let mkeys := mkeys.set "libbeat.logstash.call_count.PublishEvents" (Value.str "0")
  let mkeys := mkeys.set "libbeat.logstash.published_and_acked_events" (Value.str "0")
  let mkeys := mkeys.set "libbeat.publisher.messages_in_worker_queues" (Value.str "0")
  let mkeys := mkeys.set "libbeat.publisher.published_events" (Value.str "0")
  mkeys

/-- The function `formatMetricsHttp`. -/
def formatMetricsHttp (fmtFloat : Float64 → String) (ms : GoMap Value) : String :=
  let keys := ms.keys
  let mkeys := initialMkeys
  let pkeys := mkeys.keys
  let mkeys := keys.foldl (switchKey ms) mkeys
  let pkeys := sortStrings pkeys
  pkeys.foldl
    (fun buf pkey => buf ++ pkey ++ ":" ++ " " ++ sprintV fmtFloat (index mkeys pkey) ++ "\n") ""

/-- The function `noMetrics`. -/
def noMetrics : String :=
  let buf := ""
  let buf := buf ++ "libbeat.logstash.call_count.PublishEvents: 0\n"
  let buf := buf ++ "libbeat.logstash.publish.read_bytes: 0\n"
  let buf := buf ++ "libbeat.logstash.publish.write_bytes: 0\n"
  let buf := buf ++ "libbeat.logstash.published_and_acked_events: 0\n"
  let buf := buf ++ "libbeat.publisher.messages_in_worker_queues: 0\n"
  let buf := buf ++ "libbeat.publisher.published_events: 0\n"
  buf


/-! ## Scheduler -/

/-- An argument of a call of `Info`: a duration (`time.Duration`, in
nanoseconds) or a text. -/
inductive LogArg where
  | duration (d : Int) : LogArg
  | text (s : String) : LogArg
  deriving DecidableEq

/-- Modelled from the spec: a line handed to the log sink, the call
`Info(format, args...)` of the `logp` package, whose code is not among the
sources. The line is kept as the format and the arguments of the call. -/
structure LogEntry where
  format : String
  args : List LogArg
  deriving DecidableEq

/-- Modelled from the spec: the type `LoggingMetricsConfig`, declared outside
the sources: `Enabled` and `Period`, each nil or set. -/
structure LoggingMetricsConfig where
  Enabled : Option Bool
  Period : Option Int

/-- Modelled from the spec: the type `Logging`, declared outside the sources,
of which the reporter reads the field `Metrics`. -/
structure Logging where
  Metrics : LoggingMetricsConfig

/-- What the reporter writes: the Exposed State `Globalstr` and the log. -/
structure Process where
  Globalstr : String
  log : List LogEntry

/-- The initial value of `Globalstr`. -/
def initialGlobalstr : String := "Preparing"

/-- The process at start: `Globalstr` is the placeholder, nothing is logged. -/
def initialProcess : Process := ⟨initialGlobalstr, []⟩

/-- The call `Info(format, args...)`: the line is added to the log. -/
def Info (w : Process) (format : String) (args : List LogArg) : Process :=
  { w with log := w.log ++ [⟨format, args⟩] }

/-- The test `cfg.Enabled != nil && *cfg.Enabled == false`. -/
def disabled (metricsCfg : LoggingMetricsConfig) : Bool :=
  match metricsCfg.Enabled with
  | some enabled => enabled == false
  | none => false

/-- One pass of the loop `for range ticker.C` of `logMetrics`, on the retained
snapshot `prevVals` and the process; `snapshot` is what `snapshotMetrics()`
returns in this pass. -/
def tick (fmtFloat : Float64 → String) (period : Int) (st : FlatSnapshot × Process)
    (snapshot : FlatSnapshot) : FlatSnapshot × Process :=
  let delta := snapshotDelta st.1 snapshot
  let prevVals := snapshot
  if delta.len = 0 then
    let w := Info st.2 "No non-zero metrics in the last %s" [LogArg.duration period]
    (prevVals, { w with Globalstr := noMetrics })
  else
    let metrics := formatMetrics fmtFloat delta
    let w := Info st.2 "Non-zero metrics in the last %s:%s"
      [LogArg.duration period, LogArg.text metrics]
    (prevVals, { w with Globalstr := formatMetricsHttp fmtFloat delta })

/-- The function `logMetrics`, run for the ticks of `snapshots`: the loop never
ends, and the result is the process after the pass of the last of these ticks.
`defaultMetricsPeriod` is the constant of that name, declared outside the
sources. -/
def logMetrics (fmtFloat : Float64 → String) (defaultMetricsPeriod : Int)
    (metricsCfg : LoggingMetricsConfig) (snapshots : List FlatSnapshot) (w : Process) :
    Process :=
  if disabled metricsCfg then Info w "Metrics logging disabled" []
  else
    let period := metricsCfg.Period.getD defaultMetricsPeriod
    let w := Info w "Metrics logging every %s" [LogArg.duration period]
    let prevVals := MakeFlatSnapshot
    (snapshots.foldl (tick fmtFloat period) (prevVals, w)).2

/-- The function `LogTotalExpvars`. `first` and `second` are what the two calls
of `snapshotMetrics()` return, `uptime` is `time.Now().Sub(startTime)`. -/
def LogTotalExpvars (fmtFloat : Float64 → String) (cfg : Logging)
    (first second : FlatSnapshot) (uptime : Int) (w : Process) : Process :=
  if disabled cfg.Metrics then w
  else
    let zero := MakeFlatSnapshot
    let metrics := formatMetrics fmtFloat (snapshotDelta zero first)
    let w := Info w "Total non-zero values: %s" [LogArg.text metrics]
    let w := Info w "Uptime: %s" [LogArg.duration uptime]
    { w with Globalstr := formatMetricsHttp fmtFloat (snapshotDelta zero second) }

/-- What happens to a running scheduler: a tick of the periodic cycle, with the
snapshot captured in it, or a totals report, with its two captures and the
uptime. -/
inductive Event where
  | tick (snapshot : FlatSnapshot) : Event
  | totals (first second : FlatSnapshot) (uptime : Int) : Event

/-- One event of the scheduler: a tick runs one pass of the loop of
`logMetrics`, which only runs when reporting is enabled; a totals report runs
`LogTotalExpvars`. -/
def schedulerStep (fmtFloat : Float64 → String) (period : Int) (cfg : Logging)
    (st : FlatSnapshot × Process) : Event → FlatSnapshot × Process
  | Event.tick snapshot => if disabled cfg.Metrics then st else tick fmtFloat period st snapshot
  | Event.totals first second uptime =>
    (st.1, LogTotalExpvars fmtFloat cfg first second uptime st.2)

/-- The scheduler after a sequence of events, from the initial state. -/
def scheduler (fmtFloat : Float64 → String) (period : Int) (cfg : Logging)
    (events : List Event) : FlatSnapshot × Process :=
  events.foldl (schedulerStep fmtFloat period cfg) (MakeFlatSnapshot, initialProcess)
/-! ## Statements of the specification -/

/-- What one loop of `snapshotDelta` leaves under the name `n`: the value of
the entry of `n` in `cur` when that entry passes the loop's test, and what
the earlier loops left (`below`) otherwise. -/
def overlay {β : Type} (cond : String → β → Bool) (val : String → β → Value)
    (cur : GoMap β) (n : String) (below : Option Value) : Option Value :=
  match cur.get? n with
  | some x => if cond n x then some (val n x) else below
  | none => below

/-- No float metric of the map is NaN. -/
def NoNaN (m : GoMap Float64) : Prop := ∀ kf ∈ m.entries, kf.2 ≠ Float64.nan

/-- The snapshots `P` and `C` differ only in the integer metric `m`, and
`C.Ints[m] = P.Ints[m] + k` with `k` non-zero. -/
def DiffersInOneInt (P C : FlatSnapshot) (m : String) (k : Int64) : Prop :=
  (∀ n, C.Bools.get? n = P.Bools.get? n) ∧
  (∀ n, C.Strings.get? n = P.Strings.get? n) ∧
  (∀ n, C.Floats.get? n = P.Floats.get? n) ∧
  (∀ n, n ≠ m → C.Ints.get? n = P.Ints.get? n) ∧
  C.Ints.get? m = some (Int64.add (indexInt P.Ints m) k) ∧
  k ≠ Int64.zero

/-- The name `m` is absent from every map of the snapshot. -/
def AbsentFrom (P : FlatSnapshot) (m : String) : Prop :=
  P.Bools.get? m = none ∧ P.Strings.get? m = none ∧
  P.Ints.get? m = none ∧ P.Floats.get? m = none

/-- The name `m` is present in the snapshot with the value `v`, in the map of
the kind of `v` and in no other. -/
def PresentOnlyAs (C : FlatSnapshot) (m : String) : Value → Prop
  | Value.bool b => C.Bools.get? m = some b ∧ C.Strings.get? m = none ∧
      C.Ints.get? m = none ∧ C.Floats.get? m = none
  | Value.str s => C.Bools.get? m = none ∧ C.Strings.get? m = some s ∧
      C.Ints.get? m = none ∧ C.Floats.get? m = none
  | Value.int i => C.Bools.get? m = none ∧ C.Strings.get? m = none ∧
      C.Ints.get? m = some i ∧ C.Floats.get? m = none
  | Value.float f => C.Bools.get? m = none ∧ C.Strings.get? m = none ∧
      C.Ints.get? m = none ∧ C.Floats.get? m = some f
  | Value.null => False

/-- The value is not the default of its kind: `true`, a non-empty string, a
non-zero integer, a float other than the two zeros. -/
def NonDefault : Value → Prop
  | Value.bool b => b = true
  | Value.str s => s ≠ ""
  | Value.int i => i ≠ Int64.zero
  | Value.float f => Float64.isZero f = false
  | Value.null => False

/-- The names of the snapshot are kind-disjoint: no name is a key of two of
its maps. -/
def KindDisjoint (S : FlatSnapshot) : Prop :=
  (S.Bools.keys ++ S.Strings.keys ++ S.Ints.keys ++ S.Floats.keys).Nodup

/-- The six whitelist names of the status block, in ascending order. -/
def whitelist : List String :=
  ["libbeat.logstash.call_count.PublishEvents",
   "libbeat.logstash.publish.read_bytes",
   "libbeat.logstash.publish.write_bytes",
   "libbeat.logstash.published_and_acked_events",
   "libbeat.publisher.messages_in_worker_queues",
   "libbeat.publisher.published_events"]

/-- The value the status block shows for the name `n`: the printable form of
the delta's value when `n` is a key of the delta, the literal `0` otherwise. -/
def httpValue (fmtFloat : Float64 → String) (d : GoMap Value) (n : String) : String :=
  match d.get? n with
  | some v => sprintV fmtFloat v
  | none => "0"

/-- The line of the status block for the name `n`. -/
def httpLine (fmtFloat : Float64 → String) (d : GoMap Value) (n : String) : String :=
  n ++ ": " ++ httpValue fmtFloat d n ++ "\n"

/-- The token of the log line for one entry of the delta. -/
def logToken (fmtFloat : Float64 → String) (kv : String × Value) : String :=
  " " ++ kv.1 ++ "=" ++ sprintV fmtFloat kv.2

/-- Split a text into its newline-terminated lines, `cur` being the line read
so far, in reverse; `none` when the text does not end a line with a newline. -/
def terminatedLines : List Char → List Char → Option (List (List Char))
  | cur, [] => if cur.isEmpty then some [] else none
  | cur, c :: rest =>
    if c = '\n' then (terminatedLines [] rest).map (fun ls => cur.reverse :: ls)
    else terminatedLines (c :: cur) rest

/-- The newline-terminated lines of a text, without their newlines. -/
def linesOf (out : String) : Option (List String) :=
  (terminatedLines [] out.data).map (fun ls => ls.map String.mk)

/-- Whether the text `s` begins with `p`. -/
def startsWith (p s : String) : Bool := p.data.isPrefixOf s.data

/-- Whether `k` occurs in the text as a run of consecutive characters. -/
def occursIn (k : List Char) : List Char → Bool
  | [] => k.isEmpty
  | c :: rest => k.isPrefixOf (c :: rest) || occursIn k rest

/-- The text consists of exactly six newline-terminated lines, the i-th one
beginning with the i-th whitelist name followed by a colon and a blank. -/
def sixLineBlock (out : String) : Bool :=
  match linesOf out with
  | some ls =>
    ls.length == 6 && (List.zipWith (fun n l => startsWith (n ++ ": ") l) whitelist ls).all id
  | none => false

/-- The status block of the delta `d` consists of exactly six
newline-terminated lines, the i-th one headed by the i-th whitelist name, and no
key of `d` outside the whitelist occurs in it. -/
def StatusBlockClaim (fmtFloat : Float64 → String) (d : GoMap Value) : Prop :=
  sixLineBlock (formatMetricsHttp fmtFloat d) = true ∧
  ∀ k ∈ d.keys, k ∉ whitelist → occursIn k.data (formatMetricsHttp fmtFloat d).data = false

/-- The values the status block shows contain no newline. -/
def NewlineFree (fmtFloat : Float64 → String) (d : GoMap Value) : Prop :=
  ∀ n ∈ whitelist, '\n' ∉ (httpValue fmtFloat d n).data

/-- Two deltas agree on the six whitelist names: same presence and same value
for each. -/
def AgreeOnWhitelist (d1 d2 : GoMap Value) : Prop :=
  ∀ n ∈ whitelist, d1.get? n = d2.get? n

/-! ## Concrete inputs -/

/-- A snapshot whose only metric is the float `x = NaN`. -/
def nanSnapshot : FlatSnapshot :=
  ⟨GoMap.empty, GoMap.empty, GoMap.empty, ⟨[("x", Float64.nan)], by decide⟩⟩

/-- A snapshot with one metric of every kind: `beat.enabled = true`,
`beat.name = "journalbeat"`, `libbeat.publisher.published_events = 5` and
`system.load = 1.5`. -/
def sampleSnapshot : FlatSnapshot :=
  ⟨⟨[("beat.enabled", true)], by decide⟩,
   ⟨[("beat.name", "journalbeat")], by decide⟩,
   ⟨[("libbeat.publisher.published_events", Int64.ofInt 5)], by decide⟩,
   ⟨[("system.load", Float64.fin false 1023 2251799813685248)], by decide⟩⟩

/-- A snapshot with the integer `libbeat.publisher.published_events = i` and the
float `system.load = f`. -/
def countAndLoad (i : Int) (f : Float64) : FlatSnapshot :=
  ⟨GoMap.empty, GoMap.empty,
   ⟨[("libbeat.publisher.published_events", Int64.ofInt i)], List.nodup_singleton _⟩,
   ⟨[("system.load", f)], List.nodup_singleton _⟩⟩

/-- The delta of the specification's example: 5 published events and 3 on an
unrelated counter. -/
def exampleDelta : GoMap Value :=
  ⟨[("unrelated.counter", Value.int (Int64.ofInt 3)),
    ("libbeat.publisher.published_events", Value.int (Int64.ofInt 5))], by decide⟩

/-- The example delta without its unrelated counter. -/
def publishedOnly : GoMap Value :=
  ⟨[("libbeat.publisher.published_events", Value.int (Int64.ofInt 5))], by decide⟩

/-- A delta whose whitelisted entry is a string of two lines, beside an entry
named by the namespace `libbeat.publisher`. -/
def twoLineDelta : GoMap Value :=
  ⟨[("libbeat.publisher.published_events", Value.str "5\n6"),
    ("libbeat.publisher", Value.bool true)], by decide⟩

/-! ## Statements on absent metrics and integer deltas -/

/-- The four kinds of metric. -/
inductive Kind where
  | bool : Kind
  | str : Kind
  | int : Kind
  | float : Kind
  deriving DecidableEq

/-- The snapshot `P` with the name `m` set to the default of the kind: `false`,
the empty string, `0`, `+0`. -/
def withDefault (P : FlatSnapshot) (m : String) : Kind → FlatSnapshot
  | Kind.bool => { P with Bools := P.Bools.set m false }
  | Kind.str => { P with Strings := P.Strings.set m "" }
  | Kind.int => { P with Ints := P.Ints.set m Int64.zero }
  | Kind.float => { P with Floats := P.Floats.set m Float64.zero }

/-- The name `m` is a metric of the kind in the snapshot. -/
def HasKind (C : FlatSnapshot) (m : String) : Kind → Prop
  | Kind.bool => C.Bools.contains m = true
  | Kind.str => C.Strings.contains m = true
  | Kind.int => C.Ints.contains m = true
  | Kind.float => C.Floats.contains m = true

/-- The name `m` is absent from the map of the kind in the snapshot. -/
def AbsentInKind (P : FlatSnapshot) (m : String) : Kind → Prop
  | Kind.bool => P.Bools.get? m = none
  | Kind.str => P.Strings.get? m = none
  | Kind.int => P.Ints.get? m = none
  | Kind.float => P.Floats.get? m = none

/-- The value of `m` in the snapshot is not the default where the kind is
boolean or string: not `false`, not the empty string. -/
def NotDefaultIn (C : FlatSnapshot) (m : String) : Kind → Prop
  | Kind.bool => C.Bools.get? m ≠ some false
  | Kind.str => C.Strings.get? m ≠ some ""
  | Kind.int => True
  | Kind.float => True

/-- The integer a delta holds under the name `m`, an absent entry counting
as 0. -/
def intEntry (delta : GoMap Value) (m : String) : Int64 :=
  match delta.get? m with
  | some (Value.int i) => i
  | _ => Int64.zero

/-- Nothing of the snapshot `C` passes the test of its loop against `P`: every
integer equals its previous-or-zero value, and no boolean, string or float is
reported. -/
def NothingChanged (P C : FlatSnapshot) : Prop :=
  (∀ n i, C.Ints.get? n = some i → i = indexInt P.Ints n) ∧
  (∀ n b, C.Bools.get? n = some b → boolChanged P n b = false) ∧
  (∀ n s, C.Strings.get? n = some s → stringChanged P n s = false) ∧
  (∀ n f, C.Floats.get? n = some f → floatChanged P n f = false)

/-- The invariant of the Exposed State: the placeholder, or the status block
of some delta. -/
def ExposedInvariant (fmtFloat : Float64 → String) (g : String) : Prop :=
  g = initialGlobalstr ∨ ∃ d : GoMap Value, g = formatMetricsHttp fmtFloat d

/-! ## More concrete inputs -/

/-- A snapshot whose only metric is the boolean `beat.enabled = false`. -/
def disabledBeat : FlatSnapshot :=
  ⟨⟨[("beat.enabled", false)], by decide⟩, GoMap.empty, GoMap.empty, GoMap.empty⟩

/-- A snapshot whose only metric is the integer
`libbeat.publisher.published_events = i`. -/
def published (i : Int) : FlatSnapshot :=
  ⟨GoMap.empty, GoMap.empty,
   ⟨[("libbeat.publisher.published_events", Int64.ofInt i)], List.nodup_singleton _⟩,
   GoMap.empty⟩

/-- The example delta in its other order of iteration. -/
def exampleDeltaSwapped : GoMap Value :=
  ⟨[("libbeat.publisher.published_events", Value.int (Int64.ofInt 5)),
    ("unrelated.counter", Value.int (Int64.ofInt 3))], by decide⟩

/-- A snapshot whose only metric is the string
`libbeat.publisher.published_events`, of two lines. -/
def twoLineSnapshot : FlatSnapshot :=
  ⟨GoMap.empty, ⟨[("libbeat.publisher.published_events", "5\n6")], by decide⟩,
   GoMap.empty, GoMap.empty⟩

/-- A configuration with reporting disabled. -/
def disabledConfig : Logging := ⟨⟨some false, none⟩⟩

/-- A configuration with nothing set: reporting is enabled. -/
def defaultConfig : Logging := ⟨⟨none, none⟩⟩

/-! ## Lemmas on machine numbers -/

theorem Int64.eq_of_val_eq {a b : Int64} (h : a.val = b.val) : a = b := by
  cases a; cases b; cases h; rfl

theorem Int64.sub_add_cancel (p k : Int64) : Int64.sub (Int64.add p k) p = k := by
  apply Int64.eq_of_val_eq
  have h1 := k.lo
  have h2 := k.hi
  simp only [Int64.sub, Int64.add, Int64.ofInt, wrapInt64]
  omega

theorem Int64.add_ne_self (p k : Int64) (hk : k ≠ Int64.zero) : Int64.add p k ≠ p := by
  intro h
  apply hk
  apply Int64.eq_of_val_eq
  have h0 := congrArg Int64.val h
  have h1 := k.lo
  have h2 := k.hi
  have h3 := p.lo
  have h4 := p.hi
  simp only [Int64.add, Int64.ofInt, wrapInt64] at h0
  show k.val = 0
  omega

theorem Int64.sub_zero_eq (i : Int64) : Int64.sub i Int64.zero = i := by
  apply Int64.eq_of_val_eq
  have h1 := i.lo
  have h2 := i.hi
  simp only [Int64.sub, Int64.zero, Int64.ofInt, wrapInt64]
  omega

theorem Float64.ne_self (f : Float64) (h : f ≠ Float64.nan) : Float64.ne f f = false := by
  cases f with
  | nan => exact absurd rfl h
  | inf a => simp [Float64.ne]
  | fin s e m => simp [Float64.ne]

theorem Float64.round_magnitude (s : Bool) (e : Fin 2047) (f : Fin 4503599627370496) :
    Float64.round s (Float64.magnitude e f) = Float64.fin s e f := by
  obtain ⟨ev, he⟩ := e
  obtain ⟨fv, hf⟩ := f
  by_cases h0 : ev = 0
  · subst h0
    simp [Float64.round, Float64.magnitude, hf]
  · obtain ⟨q, rfl⟩ : ∃ q, ev = q + 1 := ⟨ev - 1, by omega⟩
    have hpos : 0 < 2 ^ q := Nat.two_pow_pos _
    have hge : 4503599627370496 ≤ (4503599627370496 + fv) * 2 ^ q := by
      calc 4503599627370496 ≤ 4503599627370496 + fv := by omega
        _ = (4503599627370496 + fv) * 1 := by omega
        _ ≤ (4503599627370496 + fv) * 2 ^ q := Nat.mul_le_mul_left _ hpos
    have hlog : Nat.log2 ((4503599627370496 + fv) * 2 ^ q) = 52 + q := by
      rw [Nat.log2_eq_log_two]
      apply (Nat.log_eq_iff (Or.inr ⟨by decide, by omega⟩)).2
      constructor
      · calc 2 ^ (52 + q) = 4503599627370496 * 2 ^ q := by rw [pow_add]; norm_num
          _ ≤ (4503599627370496 + fv) * 2 ^ q := Nat.mul_le_mul_right _ (by omega)
      · calc (4503599627370496 + fv) * 2 ^ q < 9007199254740992 * 2 ^ q :=
              Nat.mul_lt_mul_of_pos_right (by omega) hpos
          _ = 2 ^ (52 + q + 1) := by rw [pow_add, pow_add]; norm_num; ring
    have hshift : Nat.log2 ((4503599627370496 + fv) * 2 ^ q) - 52 = q := by
      rw [hlog]; omega
    have hmod : (4503599627370496 + fv) * 2 ^ q % 2 ^ q = 0 := Nat.mul_mod_left _ _
    have hdiv : (4503599627370496 + fv) * 2 ^ q / 2 ^ q = 4503599627370496 + fv :=
      Nat.mul_div_cancel _ hpos
    have hhalf : q = 0 ∨ 0 < 2 ^ q / 2 := by
      rcases Nat.eq_zero_or_pos q with h | h
      · exact Or.inl h
      · right
        obtain ⟨r, rfl⟩ : ∃ r, q = r + 1 := ⟨q - 1, by omega⟩
        rw [pow_succ, Nat.mul_div_cancel _ (by decide)]
        exact Nat.two_pow_pos _
    have hup : (decide (2 ^ q / 2 < 0) || (decide (0 = 2 ^ q / 2) && decide (0 < q) &&
        decide ((4503599627370496 + fv) % 2 = 1))) = false := by
      rcases hhalf with h | h
      · subst h; simp
      · have : ¬ (0 = 2 ^ q / 2) := by omega
        simp [this]
    have hne : ¬ (4503599627370496 + fv = 9007199254740992) := by omega
    have hfm : (4503599627370496 + fv - 4503599627370496) % 4503599627370496 = fv := by
      rw [Nat.add_sub_cancel_left, Nat.mod_eq_of_lt hf]
    have hem : (q + 1) % 2047 = q + 1 := Nat.mod_eq_of_lt he
    simp only [Float64.round, Float64.magnitude, Nat.add_sub_cancel, Nat.succ_ne_zero, if_false,
      dif_neg (not_lt.2 hge), hshift, hmod, hdiv, hup, Bool.false_eq_true, hne, he, if_true, hfm, hem]

theorem Float64.sub_pos_zero (v : Float64) (h : Float64.isZero v = false) :
    Float64.sub v Float64.zero = v := by
  cases v with
  | nan => rfl
  | inf a => rfl
  | fin s e f =>
    have hmag : Float64.magnitude e f ≠ 0 := by
      intro h0
      obtain ⟨ev, he⟩ := e
      obtain ⟨fv, hf⟩ := f
      simp only [Float64.isZero, Bool.and_eq_false_imp, decide_eq_true_eq, decide_eq_false_iff_not] at h
      unfold Float64.magnitude at h0
      by_cases hz : ev = 0
      · simp [hz] at h0
        exact h hz h0
      · simp [hz] at h0
    have hz0 : Float64.toUnits false 0 0 = 0 := by decide
    cases s with
    | false =>
      have hd : Float64.toUnits false e f - 0 = (Float64.magnitude e f : Int) := by
        simp [Float64.toUnits]
      have hd0 : ¬ ((Float64.magnitude e f : Int) = 0) := by exact_mod_cast hmag
      have hneg : decide ((Float64.magnitude e f : Int) < 0) = false := by
        simp
      simp only [Float64.sub, Float64.zero, hz0, hd, hd0, if_false, hneg, Int.natAbs_ofNat]
      exact Float64.round_magnitude false e f
    | true =>
      have hd : Float64.toUnits true e f - 0 = -(Float64.magnitude e f : Int) := by
        simp [Float64.toUnits]
      have hd0 : ¬ (-(Float64.magnitude e f : Int) = 0) := by
        have : (Float64.magnitude e f : Int) ≠ 0 := by exact_mod_cast hmag
        omega
      have hneg : decide (-(Float64.magnitude e f : Int) < 0) = true := by
        have : (0 : Int) < (Float64.magnitude e f : Int) := by
          have := Nat.pos_of_ne_zero hmag
          exact_mod_cast this
        simp; omega
      simp only [Float64.sub, Float64.zero, hz0, hd, hd0, if_false, hneg, Int.natAbs_neg,
        Int.natAbs_ofNat]
      exact Float64.round_magnitude true e f

theorem Float64.zero_ne (v : Float64) (h : Float64.isZero v = false) :
    Float64.ne Float64.zero v = true := by
  cases v with
  | nan => rfl
  | inf a => simp [Float64.ne, Float64.zero, Float64.isZero]
  | fin s e f =>
    simp only [Float64.ne, Float64.zero, h, Bool.and_false, Bool.or_false, Bool.not_eq_true',
      decide_eq_false_iff_not]
    intro heq
    injection heq with h1 h2 h3
    subst h2 h3
    simp [Float64.isZero] at h

/-! ## Lemmas on maps -/

theorem GoMap.eq_of_entries_eq {α : Type} {a b : GoMap α} (h : a.entries = b.entries) :
    a = b := by
  cases a; cases b; cases h; rfl

theorem lookup_cons_eq {α : Type} (k : String) (v : α) (rest : List (String × α))
    (n : String) : List.lookup n ((k, v) :: rest) = if n = k then some v else rest.lookup n := by
  by_cases h : n = k
  · subst h
    simp [List.lookup]
  · have hb : (n == k) = false := by simpa using h
    simp [List.lookup, hb, h]

theorem lookup_setEntry {α : Type} (k : String) (v : α) (l : List (String × α)) (n : String) :
    (setEntry k v l).lookup n = if n = k then some v else l.lookup n := by
  induction l with
  | nil => simp [setEntry, lookup_cons_eq]
  | cons p rest ih =>
    obtain ⟨k1, v1⟩ := p
    by_cases hk : k1 = k
    · subst hk
      by_cases h : n = k1 <;> simp [setEntry, lookup_cons_eq, h]
    · by_cases h1 : n = k1
      · subst h1
        simp [setEntry, lookup_cons_eq, hk]
      · simp [setEntry, lookup_cons_eq, hk, h1, ih]

theorem GoMap.get?_set {α : Type} (m : GoMap α) (k : String) (v : α) (n : String) :
    (m.set k v).get? n = if n = k then some v else m.get? n :=
  lookup_setEntry k v m.entries n

theorem lookup_eq_none_of_not_mem {α : Type} (l : List (String × α)) (n : String)
    (h : n ∉ l.map Prod.fst) : l.lookup n = none := by
  induction l with
  | nil => rfl
  | cons p rest ih =>
    obtain ⟨k1, v1⟩ := p
    simp only [List.map_cons, List.mem_cons, not_or] at h
    simp [lookup_cons_eq, h.1, ih h.2]

theorem lookup_of_mem {α : Type} (l : List (String × α)) (hnd : (l.map Prod.fst).Nodup)
    (k : String) (v : α) (h : (k, v) ∈ l) : l.lookup k = some v := by
  induction l with
  | nil => simp at h
  | cons p rest ih =>
    obtain ⟨k1, v1⟩ := p
    rw [List.map_cons, List.nodup_cons] at hnd
    rcases List.mem_cons.1 h with h1 | h1
    · cases h1
      simp [lookup_cons_eq]
    · have hne : k ≠ k1 := by
        intro e
        subst e
        exact hnd.1 (List.mem_map.2 ⟨(k, v), h1, rfl⟩)
      simp [lookup_cons_eq, hne, ih hnd.2 h1]

theorem mem_of_lookup {α : Type} (l : List (String × α)) (k : String) (v : α)
    (h : l.lookup k = some v) : (k, v) ∈ l := by
  induction l with
  | nil => simp [List.lookup] at h
  | cons p rest ih =>
    obtain ⟨k1, v1⟩ := p
    by_cases hk : k = k1
    · subst hk
      simp [lookup_cons_eq] at h
      simp [h]
    · simp [lookup_cons_eq, hk] at h
      exact List.mem_cons_of_mem _ (ih h)

theorem GoMap.get?_of_mem {α : Type} (m : GoMap α) (k : String) (v : α)
    (h : (k, v) ∈ m.entries) : m.get? k = some v :=
  lookup_of_mem m.entries m.nodup k v h

theorem GoMap.entries_eq_nil {α : Type} (m : GoMap α) (h : ∀ n, m.get? n = none) :
    m.entries = [] := by
  cases hm : m.entries with
  | nil => rfl
  | cons p rest =>
    obtain ⟨k1, v1⟩ := p
    have := m.get?_of_mem k1 v1 (by simp [hm])
    rw [h k1] at this
    cases this

theorem GoMap.entries_eq_singleton {α : Type} (m : GoMap α) (k : String) (v : α)
    (hk : m.get? k = some v) (hn : ∀ n, n ≠ k → m.get? n = none) :
    m.entries = [(k, v)] := by
  have hall : ∀ k1 v1, (k1, v1) ∈ m.entries → k1 = k ∧ v1 = v := by
    intro k1 v1 hmem
    have h1 := m.get?_of_mem k1 v1 hmem
    by_cases e : k1 = k
    · subst e
      rw [hk] at h1
      exact ⟨rfl, (Option.some.inj h1).symm⟩
    · rw [hn k1 e] at h1
      cases h1
  have hnd := m.nodup
  cases hm : m.entries with
  | nil =>
    have := mem_of_lookup m.entries k v hk
    rw [hm] at this
    cases this
  | cons p rest =>
    obtain ⟨k1, v1⟩ := p
    rw [hm] at hall hnd
    obtain ⟨e1, e2⟩ := hall k1 v1 (by simp)
    subst e1 e2
    cases rest with
    | nil => rfl
    | cons q rest2 =>
      obtain ⟨k2, v2⟩ := q
      obtain ⟨e3, _⟩ := hall k2 v2 (by simp)
      subst e3
      simp at hnd

/-- Folding a conditional assignment over the entries of a map: the lookup of
`n` afterwards is decided by the entry of `n` alone. -/
theorem foldl_condSet_get? {β : Type} (cond : String → β → Bool) (val : String → β → Value)
    (step : GoMap Value → String × β → GoMap Value)
    (hstep : ∀ out kx, step out kx = if cond kx.1 kx.2 then out.set kx.1 (val kx.1 kx.2) else out)
    (l : List (String × β)) (hnd : (l.map Prod.fst).Nodup) (out : GoMap Value) (n : String) :
    (l.foldl step out).get? n =
      match l.lookup n with
      | some x => if cond n x then some (val n x) else out.get? n
      | none => out.get? n := by
  induction l generalizing out with
  | nil => rfl
  | cons p rest ih =>
    obtain ⟨k1, x1⟩ := p
    rw [List.map_cons, List.nodup_cons] at hnd
    rw [List.foldl_cons, ih hnd.2, hstep]
    by_cases hk : n = k1
    · subst hk
      rw [lookup_eq_none_of_not_mem rest n hnd.1]
      by_cases hc : cond n x1 <;> simp [lookup_cons_eq, hc, GoMap.get?_set]
    · by_cases hc : cond k1 x1 <;> simp [lookup_cons_eq, hc, GoMap.get?_set, hk]

/-! ## The delta, name by name -/

/-- The lookup of a name in the delta: the four loops of `snapshotDelta` laid
one over the other, the later loop winning. -/
theorem snapshotDelta_get? (P C : FlatSnapshot) (n : String) :
    (snapshotDelta P C).get? n =
      overlay (floatChanged P)
        (fun k f => Value.float (Float64.sub f (indexFloat P.Floats k))) C.Floats n
        (overlay (intChanged P)
          (fun k i => Value.int (Int64.sub i (indexInt P.Ints k))) C.Ints n
          (overlay (stringChanged P) (fun _ s => Value.str s) C.Strings n
            (overlay (boolChanged P) (fun _ b => Value.bool b) C.Bools n none))) := by
  unfold snapshotDelta overlay
  simp only []
  rw [foldl_condSet_get? (floatChanged P)
      (fun k f => Value.float (Float64.sub f (indexFloat P.Floats k)))
      (floatStep P) (fun _ _ => rfl) C.Floats.entries C.Floats.nodup,
    foldl_condSet_get? (intChanged P)
      (fun k i => Value.int (Int64.sub i (indexInt P.Ints k)))
      (intStep P) (fun _ _ => rfl) C.Ints.entries C.Ints.nodup,
    foldl_condSet_get? (stringChanged P) (fun _ s => Value.str s)
      (stringStep P) (fun _ _ => rfl) C.Strings.entries C.Strings.nodup,
    foldl_condSet_get? (boolChanged P) (fun _ b => Value.bool b)
      (boolStep P) (fun _ _ => rfl) C.Bools.entries C.Bools.nodup]
  rfl

theorem overlay_none {β : Type} (cond : String → β → Bool) (val : String → β → Value)
    (cur : GoMap β) (n : String) (below : Option Value) (h : cur.get? n = none) :
    overlay cond val cur n below = below := by
  simp [overlay, h]

theorem overlay_some {β : Type} (cond : String → β → Bool) (val : String → β → Value)
    (cur : GoMap β) (n : String) (below : Option Value) (x : β) (h : cur.get? n = some x) :
    overlay cond val cur n below = if cond n x then some (val n x) else below := by
  simp [overlay, h]

theorem overlay_unchanged {β : Type} (cond : String → β → Bool) (val : String → β → Value)
    (cur : GoMap β) (n : String) (below : Option Value)
    (h : ∀ x, cur.get? n = some x → cond n x = false) :
    overlay cond val cur n below = below := by
  unfold overlay
  cases hg : cur.get? n with
  | none => rfl
  | some x => simp [h x hg]

theorem boolChanged_of_get? (P : FlatSnapshot) (n : String) (b : Bool) :
    boolChanged P n b = (match P.Bools.get? n with
      | some p => p != b
      | none => true) := by
  unfold boolChanged commaOk
  cases P.Bools.get? n <;> simp

theorem stringChanged_of_get? (P : FlatSnapshot) (n : String) (s : String) :
    stringChanged P n s = (match P.Strings.get? n with
      | some p => p != s
      | none => true) := by
  unfold stringChanged commaOk
  cases P.Strings.get? n <;> simp

theorem NoNaN.get? {m : GoMap Float64} (h : NoNaN m) (n : String) (f : Float64)
    (hf : m.get? n = some f) : f ≠ Float64.nan :=
  h (n, f) (mem_of_lookup m.entries n f hf)

/-- The delta of a snapshot against itself has no entry, NaN floats apart. -/
theorem snapshotDelta_self_get? (S : FlatSnapshot) (hnan : NoNaN S.Floats) (n : String) :
    (snapshotDelta S S).get? n = none := by
  rw [snapshotDelta_get?, overlay_unchanged, overlay_unchanged, overlay_unchanged,
    overlay_unchanged]
  · intro b hb
    simp [boolChanged_of_get?, hb]
  · intro s hs
    simp [stringChanged_of_get?, hs]
  · intro i hi
    simp [intChanged, indexInt, hi]
  · intro f hf
    simp [floatChanged, indexFloat, hf, Float64.ne_self f (hnan.get? n f hf)]

theorem snapshotDelta_get?_of_differsInOneInt (P C : FlatSnapshot) (m : String) (k : Int64)
    (h : DiffersInOneInt P C m k) (hnan : NoNaN C.Floats) (n : String) :
    (snapshotDelta P C).get? n = if n = m then some (Value.int k) else none := by
  obtain ⟨hB, hS, hF, hI, hm, hk⟩ := h
  have hfl : ∀ below, overlay (floatChanged P)
      (fun k f => Value.float (Float64.sub f (indexFloat P.Floats k))) C.Floats n below
      = below := by
    intro below
    apply overlay_unchanged
    intro f hf
    have hp : P.Floats.get? n = some f := by rw [← hF n]; exact hf
    simp [floatChanged, indexFloat, hp, Float64.ne_self f (hnan.get? n f hf)]
  have hst : ∀ below, overlay (stringChanged P) (fun _ s => Value.str s) C.Strings n below
      = below := by
    intro below
    apply overlay_unchanged
    intro s hs
    have hp : P.Strings.get? n = some s := by rw [← hS n]; exact hs
    simp [stringChanged_of_get?, hp]
  have hbo : ∀ below, overlay (boolChanged P) (fun _ b => Value.bool b) C.Bools n below
      = below := by
    intro below
    apply overlay_unchanged
    intro b hb
    have hp : P.Bools.get? n = some b := by rw [← hB n]; exact hb
    simp [boolChanged_of_get?, hp]
  rw [snapshotDelta_get?, hfl, hst, hbo]
  by_cases hn : n = m
  · subst hn
    rw [overlay_some _ _ _ _ _ _ hm]
    have hne : intChanged P n (Int64.add (indexInt P.Ints n) k) = true := by
      simp only [intChanged, bne_iff_ne, ne_eq]
      exact fun e => Int64.add_ne_self _ k hk e.symm
    simp [hne, Int64.sub_add_cancel]
  · rw [overlay_unchanged]
    · simp [hn]
    · intro i hi
      have hp : P.Ints.get? n = some i := by rw [← hI n hn]; exact hi
      simp [intChanged, indexInt, hp]

theorem snapshotDelta_get?_of_absent (P C : FlatSnapshot) (m : String) (v : Value)
    (hP : AbsentFrom P m) (hC : PresentOnlyAs C m v) (hv : NonDefault v) :
    (snapshotDelta P C).get? m = some v := by
  obtain ⟨pB, pS, pI, pF⟩ := hP
  rw [snapshotDelta_get?]
  cases v with
  | bool b =>
    obtain ⟨cB, cS, cI, cF⟩ := hC
    rw [overlay_none _ _ _ _ _ cF, overlay_none _ _ _ _ _ cI, overlay_none _ _ _ _ _ cS,
      overlay_some _ _ _ _ _ _ cB]
    simp [boolChanged_of_get?, pB]
  | str s =>
    obtain ⟨cB, cS, cI, cF⟩ := hC
    rw [overlay_none _ _ _ _ _ cF, overlay_none _ _ _ _ _ cI, overlay_some _ _ _ _ _ _ cS]
    simp [stringChanged_of_get?, pS]
  | int i =>
    obtain ⟨cB, cS, cI, cF⟩ := hC
    rw [overlay_none _ _ _ _ _ cF, overlay_some _ _ _ _ _ _ cI]
    have hne : intChanged P m i = true := by
      simp only [intChanged, indexInt, pI, Option.getD_none, bne_iff_ne, ne_eq]
      exact fun e => hv e.symm
    simp [hne, indexInt, pI, Int64.sub_zero_eq]
  | float f =>
    obtain ⟨cB, cS, cI, cF⟩ := hC
    rw [overlay_some _ _ _ _ _ _ cF]
    have hne : floatChanged P m f = true := by
      simp only [floatChanged, indexFloat, pF, Option.getD_none]
      exact Float64.zero_ne f hv
    simp [hne, indexFloat, pF, Float64.sub_pos_zero f hv]
  | null => exact hC.elim

theorem mem_keys_of_get? {α : Type} (m : GoMap α) (n : String) (v : α)
    (h : m.get? n = some v) : n ∈ m.keys :=
  List.mem_map.2 ⟨(n, v), mem_of_lookup m.entries n v h, rfl⟩

theorem get?_eq_none_of_not_mem_keys {α : Type} (m : GoMap α) (n : String)
    (h : n ∉ m.keys) : m.get? n = none :=
  lookup_eq_none_of_not_mem m.entries n h

theorem KindDisjoint.of_bool {C : FlatSnapshot} (hC : KindDisjoint C) (n : String) (b : Bool)
    (h : C.Bools.get? n = some b) :
    C.Strings.get? n = none ∧ C.Ints.get? n = none ∧ C.Floats.get? n = none := by
  have hmem := mem_keys_of_get? _ n b h
  unfold KindDisjoint at hC
  simp only [List.nodup_append] at hC
  obtain ⟨⟨⟨_, _, d1⟩, _, d2⟩, _, d3⟩ := hC
  refine ⟨get?_eq_none_of_not_mem_keys _ n fun hx => d1 hmem hx,
    get?_eq_none_of_not_mem_keys _ n fun hx => d2 (by simp [hmem]) hx,
    get?_eq_none_of_not_mem_keys _ n fun hx => d3 (by simp [hmem]) hx⟩

theorem KindDisjoint.of_string {C : FlatSnapshot} (hC : KindDisjoint C) (n : String)
    (s : String) (h : C.Strings.get? n = some s) :
    C.Ints.get? n = none ∧ C.Floats.get? n = none := by
  have hmem := mem_keys_of_get? _ n s h
  unfold KindDisjoint at hC
  simp only [List.nodup_append] at hC
  obtain ⟨⟨_, _, d2⟩, _, d3⟩ := hC
  refine ⟨get?_eq_none_of_not_mem_keys _ n fun hx => d2 (by simp [hmem]) hx,
    get?_eq_none_of_not_mem_keys _ n fun hx => d3 (by simp [hmem]) hx⟩

theorem KindDisjoint.of_int {C : FlatSnapshot} (hC : KindDisjoint C) (n : String)
    (i : Int64) (h : C.Ints.get? n = some i) : C.Floats.get? n = none := by
  have hmem := mem_keys_of_get? _ n i h
  unfold KindDisjoint at hC
  simp only [List.nodup_append] at hC
  obtain ⟨_, _, d3⟩ := hC
  exact get?_eq_none_of_not_mem_keys _ n fun hx => d3 (by simp [hmem]) hx

theorem snapshotDelta_get?_bool (P C : FlatSnapshot) (hC : KindDisjoint C) (n : String)
    (b : Bool) (h : C.Bools.get? n = some b) :
    (snapshotDelta P C).get? n = if boolChanged P n b then some (Value.bool b) else none := by
  obtain ⟨cS, cI, cF⟩ := hC.of_bool n b h
  rw [snapshotDelta_get?, overlay_none _ _ _ _ _ cF, overlay_none _ _ _ _ _ cI,
    overlay_none _ _ _ _ _ cS, overlay_some _ _ _ _ _ _ h]

theorem snapshotDelta_get?_string (P C : FlatSnapshot) (hC : KindDisjoint C) (n : String)
    (s : String) (h : C.Strings.get? n = some s) :
    (snapshotDelta P C).get? n = if stringChanged P n s then some (Value.str s) else none := by
  obtain ⟨cI, cF⟩ := hC.of_string n s h
  rw [snapshotDelta_get?, overlay_none _ _ _ _ _ cF, overlay_none _ _ _ _ _ cI,
    overlay_some _ _ _ _ _ _ h]
  by_cases hc : stringChanged P n s
  · simp [hc]
  · simp only [hc, Bool.false_eq_true, if_false]
    apply overlay_unchanged
    intro b hb
    exfalso
    have := (hC.of_bool n b hb).1
    rw [h] at this
    cases this

theorem snapshotDelta_get?_int (P C : FlatSnapshot) (hC : KindDisjoint C) (n : String)
    (i : Int64) (h : C.Ints.get? n = some i) :
    (snapshotDelta P C).get? n =
      if intChanged P n i then some (Value.int (Int64.sub i (indexInt P.Ints n))) else none := by
  have cF := hC.of_int n i h
  rw [snapshotDelta_get?, overlay_none _ _ _ _ _ cF, overlay_some _ _ _ _ _ _ h]
  by_cases hc : intChanged P n i
  · simp [hc]
  · simp only [hc, Bool.false_eq_true, if_false]
    have hS : C.Strings.get? n = none := by
      cases hs : C.Strings.get? n with
      | none => rfl
      | some s =>
        have := (hC.of_string n s hs).1
        rw [h] at this
        cases this
    have hB : C.Bools.get? n = none := by
      cases hb : C.Bools.get? n with
      | none => rfl
      | some b =>
        have := (hC.of_bool n b hb).2.1
        rw [h] at this
        cases this
    rw [overlay_none _ _ _ _ _ hS, overlay_none _ _ _ _ _ hB]

theorem Int64.sub_val_of_fits (a b : Int64)
    (h1 : -9223372036854775808 ≤ a.val - b.val) (h2 : a.val - b.val < 9223372036854775808) :
    (Int64.sub a b).val = a.val - b.val := by
  simp only [Int64.sub, Int64.ofInt, wrapInt64]
  omega

/-! ## Lemmas on the status block -/

theorem switchKey_eq (ms mkeys : GoMap Value) (key : String) :
    switchKey ms mkeys key = if key ∈ whitelist then mkeys.set key (index ms key) else mkeys := by
  unfold switchKey whitelist
  simp only [List.mem_cons, List.mem_singleton, List.not_mem_nil, or_false]
  split_ifs <;> first | rfl | (exfalso; tauto)

theorem foldl_switchKey_get? (ms : GoMap Value) (keys : List String) (mkeys : GoMap Value)
    (n : String) :
    (keys.foldl (switchKey ms) mkeys).get? n =
      if n ∈ keys ∧ n ∈ whitelist then some (index ms n) else mkeys.get? n := by
  induction keys generalizing mkeys with
  | nil => simp
  | cons k rest ih =>
    rw [List.foldl_cons, ih, switchKey_eq]
    by_cases hr : n ∈ rest ∧ n ∈ whitelist
    · have : n ∈ k :: rest ∧ n ∈ whitelist := ⟨List.mem_cons_of_mem _ hr.1, hr.2⟩
      simp [hr, this]
    · rw [if_neg hr]
      by_cases hk : n = k
      · subst hk
        by_cases hw : n ∈ whitelist
        · simp [hw, GoMap.get?_set]
        · simp [hw]
      · have hiff : (n ∈ k :: rest ∧ n ∈ whitelist) ↔ (n ∈ rest ∧ n ∈ whitelist) := by
          simp [hk]
        rw [if_neg (fun h => hr (hiff.1 h))]
        by_cases hw : k ∈ whitelist
        · simp [hw, GoMap.get?_set, hk]
        · simp [hw]

theorem initialMkeys_get? (n : String) (hn : n ∈ whitelist) :
    initialMkeys.get? n = some (Value.str "0") := by
  revert n
  decide

theorem mem_keys_iff_get? {α : Type} (m : GoMap α) (n : String) :
    n ∈ m.keys ↔ ∃ v, m.get? n = some v := by
  constructor
  · intro h
    obtain ⟨⟨k, v⟩, hmem, hk⟩ := List.mem_map.1 h
    cases hk
    exact ⟨v, m.get?_of_mem k v hmem⟩
  · rintro ⟨v, hv⟩
    exact mem_keys_of_get? m n v hv

/-- What the status block prints for a whitelist name: the delta's value when
the name is a key of the delta, `0` otherwise. -/
theorem sprintV_index_mkeys (fmtFloat : Float64 → String) (ms : GoMap Value) (n : String)
    (hn : n ∈ whitelist) :
    sprintV fmtFloat (index (ms.keys.foldl (switchKey ms) initialMkeys) n)
      = httpValue fmtFloat ms n := by
  unfold index httpValue
  rw [foldl_switchKey_get?]
  cases hg : ms.get? n with
  | none =>
    have : ¬ (n ∈ ms.keys ∧ n ∈ whitelist) := by
      rintro ⟨h, _⟩
      obtain ⟨v, hv⟩ := (mem_keys_iff_get? ms n).1 h
      rw [hg] at hv
      cases hv
    rw [if_neg this, initialMkeys_get? n hn]
    rfl
  | some v =>
    have : n ∈ ms.keys ∧ n ∈ whitelist := ⟨mem_keys_of_get? ms n v hg, hn⟩
    rw [if_pos this]
    simp [index, hg]

theorem sortStrings_initialMkeys : sortStrings initialMkeys.keys = whitelist := by decide

/-- The status block is the six lines of the whitelist names, in ascending
order of the names. -/
theorem formatMetricsHttp_eq_lines (fmtFloat : Float64 → String) (ms : GoMap Value) :
    formatMetricsHttp fmtFloat ms = String.join (whitelist.map (httpLine fmtFloat ms)) := by
  unfold formatMetricsHttp
  simp only [sortStrings_initialMkeys]
  have h : ∀ n ∈ whitelist,
      sprintV fmtFloat (index (ms.keys.foldl (switchKey ms) initialMkeys) n)
        = httpValue fmtFloat ms n := fun n hn => sprintV_index_mkeys fmtFloat ms n hn
  simp only [whitelist, List.foldl_cons, List.foldl_nil, List.map_cons, List.map_nil,
    String.join, httpLine] at h ⊢
  simp only [List.mem_cons, List.mem_singleton, List.not_mem_nil, or_false, forall_eq_or_imp,
    forall_eq] at h
  obtain ⟨h1, h2, h3, h4, h5, h6⟩ := h
  rw [h1, h2, h3, h4, h5, h6]
  have hc : ∀ s : String, s ++ ":" ++ " " = s ++ ": " := by
    intro s
    rw [String.append_assoc]
    rfl
  simp only [String.empty_append, String.append_assoc, hc]

theorem terminatedLines_append (l : List Char) (hl : '\n' ∉ l) (cur rest : List Char) :
    terminatedLines cur (l ++ '\n' :: rest)
      = (terminatedLines [] rest).map (fun ls => (cur.reverse ++ l) :: ls) := by
  induction l generalizing cur with
  | nil => simp [terminatedLines]
  | cons c l ih =>
    have hc : c ≠ '\n' := fun e => hl (by simp [e])
    have hl2 : '\n' ∉ l := fun h => hl (List.mem_cons_of_mem _ h)
    rw [List.cons_append, terminatedLines, if_neg hc, ih hl2]
    simp

theorem terminatedLines_flatten (ls : List (List Char)) (h : ∀ l ∈ ls, '\n' ∉ l) :
    terminatedLines [] (ls.map (fun l => l ++ ['\n'])).flatten = some ls := by
  induction ls with
  | nil => simp [terminatedLines]
  | cons l rest ih =>
    have h1 : '\n' ∉ l := h l (by simp)
    have h2 : ∀ x ∈ rest, '\n' ∉ x := fun x hx => h x (List.mem_cons_of_mem _ hx)
    rw [List.map_cons, List.flatten_cons, List.append_assoc, List.singleton_append,
      terminatedLines_append l h1, ih h2]
    simp

theorem linesOf_join (ss : List String) (h : ∀ s ∈ ss, '\n' ∉ s.data) :
    linesOf (String.join (ss.map (fun s => s ++ "\n"))) = some ss := by
  unfold linesOf
  have hd : (String.join (ss.map (fun s => s ++ "\n"))).data
      = ((ss.map String.data).map (fun l => l ++ ['\n'])).flatten := by
    rw [String.data_join]
    simp [List.map_map, Function.comp_def]
  rw [hd, terminatedLines_flatten]
  · simp [List.map_map, Function.comp_def]
  · intro l hl
    obtain ⟨s, hs, rfl⟩ := List.mem_map.1 hl
    exact h s hs

theorem whitelist_newline_free : ∀ n ∈ whitelist, '\n' ∉ (n ++ ": ").data := by decide

theorem linesOf_formatMetricsHttp (fmtFloat : Float64 → String) (d : GoMap Value)
    (h : NewlineFree fmtFloat d) :
    linesOf (formatMetricsHttp fmtFloat d)
      = some (whitelist.map (fun n => n ++ ": " ++ httpValue fmtFloat d n)) := by
  rw [formatMetricsHttp_eq_lines]
  have hm : whitelist.map (httpLine fmtFloat d)
      = (whitelist.map (fun n => n ++ ": " ++ httpValue fmtFloat d n)).map
          (fun s => s ++ "\n") := by
    simp [List.map_map, Function.comp_def, httpLine]
  rw [hm, linesOf_join]
  intro s hs
  obtain ⟨n, hn, rfl⟩ := List.mem_map.1 hs
  rw [String.data_append, List.mem_append]
  rintro (h1 | h2)
  · exact whitelist_newline_free n hn h1
  · exact h n hn h2

theorem startsWith_append (p s : String) : startsWith p (p ++ s) = true := by
  simp [startsWith]

theorem sixLineBlock_formatMetricsHttp (fmtFloat : Float64 → String) (d : GoMap Value)
    (h : NewlineFree fmtFloat d) : sixLineBlock (formatMetricsHttp fmtFloat d) = true := by
  unfold sixLineBlock
  rw [linesOf_formatMetricsHttp fmtFloat d h]
  simp [whitelist, startsWith_append]

theorem httpLine_congr (fmtFloat : Float64 → String) (d1 d2 : GoMap Value) (n : String)
    (h : d1.get? n = d2.get? n) : httpLine fmtFloat d1 n = httpLine fmtFloat d2 n := by
  simp [httpLine, httpValue, h]

theorem formatMetricsHttp_congr (fmtFloat : Float64 → String) (d1 d2 : GoMap Value)
    (h : AgreeOnWhitelist d1 d2) :
    formatMetricsHttp fmtFloat d1 = formatMetricsHttp fmtFloat d2 := by
  rw [formatMetricsHttp_eq_lines, formatMetricsHttp_eq_lines]
  congr 1
  exact List.map_congr_left (fun n hn => httpLine_congr fmtFloat d1 d2 n (h n hn))

/-! ## Lemmas on the order of strings -/

theorem charsLess_asymm : ∀ a b : List Char, charsLess a b = true → charsLess b a = false
  | [], [] => by simp [charsLess]
  | [], _ :: _ => by simp [charsLess]
  | _ :: _, [] => by simp [charsLess]
  | x :: as, y :: bs => by
    intro h
    unfold charsLess at h ⊢
    by_cases h1 : x.toNat < y.toNat
    · have : ¬ y.toNat < x.toNat := by omega
      simp [h1, this]
    · by_cases h2 : y.toNat < x.toNat
      · simp [h1, h2] at h
      · simp only [h1, h2, if_false] at h ⊢
        exact charsLess_asymm as bs h

theorem charsLess_le_trans : ∀ a b c : List Char,
    charsLess b a = false → charsLess c b = false → charsLess c a = false
  | [], _, [] => by simp [charsLess]
  | [], _, _ :: _ => by simp [charsLess]
  | _ :: _, [], _ => by simp [charsLess]
  | _ :: _, _ :: _, [] => by simp [charsLess]
  | x :: as, y :: bs, z :: cs => by
    intro h1 h2
    unfold charsLess at h1 h2 ⊢
    by_cases hyx : y.toNat < x.toNat
    · simp [hyx] at h1
    · by_cases hxy : x.toNat < y.toNat
      · by_cases hzy : z.toNat < y.toNat
        · simp [hzy] at h2
        · have h3 : ¬ z.toNat < x.toNat := by omega
          have h4 : x.toNat < z.toNat := by omega
          simp [h3, h4]
      · simp only [hyx, hxy, if_false] at h1
        by_cases hzy : z.toNat < y.toNat
        · simp [hzy] at h2
        · by_cases hyz : y.toNat < z.toNat
          · have h3 : ¬ z.toNat < x.toNat := by omega
            have h4 : x.toNat < z.toNat := by omega
            simp [h3, h4]
          · simp only [hzy, hyz, if_false] at h2
            have h3 : ¬ z.toNat < x.toNat := by omega
            have h4 : ¬ x.toNat < z.toNat := by omega
            simp only [h3, h4, if_false]
            exact charsLess_le_trans as bs cs h1 h2

theorem charsLess_trichotomy : ∀ a b : List Char,
    charsLess a b = false → charsLess b a = false → a = b
  | [], [] => by simp
  | [], _ :: _ => by simp [charsLess]
  | _ :: _, [] => by simp [charsLess]
  | x :: as, y :: bs => by
    intro h1 h2
    unfold charsLess at h1 h2
    by_cases hxy : x.toNat < y.toNat
    · simp [hxy] at h1
    · by_cases hyx : y.toNat < x.toNat
      · simp [hyx] at h2
      · simp only [hxy, hyx, if_false] at h1 h2
        have hx : x = y := by
          apply Char.ext
          apply UInt32.ext
          have : x.toNat = y.toNat := by omega
          exact this
        rw [hx, charsLess_trichotomy as bs h1 h2]

theorem stringLe_total (a b : String) : stringLe a b = true ∨ stringLe b a = true := by
  unfold stringLe stringLess
  cases h : charsLess b.data a.data with
  | false => simp
  | true => simp [charsLess_asymm _ _ h]

theorem stringLe_trans (a b c : String) (h1 : stringLe a b = true) (h2 : stringLe b c = true) :
    stringLe a c = true := by
  unfold stringLe stringLess at *
  simp only [Bool.not_eq_true', ] at *
  exact charsLess_le_trans _ _ _ h1 h2

theorem stringLess_of_le_of_ne (a b : String) (h1 : stringLe a b = true) (h2 : a ≠ b) :
    stringLess a b = true := by
  unfold stringLe stringLess at *
  simp only [Bool.not_eq_true'] at h1
  cases h : charsLess a.data b.data with
  | true => rfl
  | false => exact absurd (String.ext (charsLess_trichotomy _ _ h h1)) h2

instance stringLe_isTotal : IsTotal String (fun a b => stringLe a b = true) :=
  ⟨stringLe_total⟩

instance stringLe_isTrans : IsTrans String (fun a b => stringLe a b = true) :=
  ⟨stringLe_trans⟩

theorem sortStrings_perm (keys : List String) : (sortStrings keys).Perm keys :=
  List.perm_insertionSort _ keys

theorem sortStrings_sorted (keys : List String) :
    (sortStrings keys).Pairwise (fun a b => stringLe a b = true) :=
  List.sorted_insertionSort _ keys

theorem sortStrings_strict (keys : List String) (h : keys.Nodup) :
    (sortStrings keys).Pairwise (fun a b => stringLess a b = true) := by
  have hnd : (sortStrings keys).Nodup := (sortStrings_perm keys).nodup_iff.2 h
  have hs := sortStrings_sorted keys
  exact (hs.and hnd).imp (fun ⟨h1, h2⟩ => stringLess_of_le_of_ne _ _ h1 h2)

/-! ## Lemmas on the log line -/

theorem foldl_append_eq (f : String → String) (l : List String) (init : String) :
    l.foldl (fun buf x => buf ++ f x) init = init ++ String.join (l.map f) := by
  induction l generalizing init with
  | nil => simp [String.join]
  | cons x rest ih =>
    rw [List.foldl_cons, ih, List.map_cons]
    apply String.ext
    simp [String.data_join]

theorem formatMetrics_eq_join (fmtFloat : Float64 → String) (ms : GoMap Value) :
    formatMetrics fmtFloat ms
      = String.join (((sortStrings ms.keys).map (fun k => (k, index ms k))).map
          (logToken fmtFloat)) := by
  unfold formatMetrics
  have hf : (fun (buf key : String) => buf ++ " " ++ key ++ "=" ++ sprintV fmtFloat (index ms key))
      = (fun buf key => buf ++ (fun k => logToken fmtFloat (k, index ms k)) key) := by
    funext buf key
    simp [logToken, String.append_assoc]
  simp only [hf]
  rw [foldl_append_eq, String.empty_append, List.map_map]
  rfl

theorem sortedEntries_perm (ms : GoMap Value) :
    ((sortStrings ms.keys).map (fun k => (k, index ms k))).Perm ms.entries := by
  have hk : (sortStrings ms.keys).Nodup := (sortStrings_perm ms.keys).nodup_iff.2 ms.nodup
  have h1 : ((sortStrings ms.keys).map (fun k => (k, index ms k))).Nodup := by
    apply List.Nodup.of_map Prod.fst
    simpa [List.map_map, Function.comp_def] using hk
  have h2 : ms.entries.Nodup := List.Nodup.of_map Prod.fst ms.nodup
  apply (List.perm_ext_iff_of_nodup h1 h2).2
  rintro ⟨k, v⟩
  constructor
  · intro h
    obtain ⟨k1, hk1, he⟩ := List.mem_map.1 h
    cases he
    have hmem : k ∈ ms.keys := (sortStrings_perm ms.keys).mem_iff.1 hk1
    obtain ⟨v1, hv1⟩ := (mem_keys_iff_get? ms k).1 hmem
    have : index ms k = v1 := by simp [index, hv1]
    rw [this]
    exact mem_of_lookup ms.entries k v1 hv1
  · intro h
    have hv := ms.get?_of_mem k v h
    have hmem : k ∈ sortStrings ms.keys :=
      (sortStrings_perm ms.keys).mem_iff.2 (mem_keys_of_get? ms k v hv)
    exact List.mem_map.2 ⟨k, hmem, by simp [index, hv]⟩

theorem sortedEntries_strict (ms : GoMap Value) :
    ((sortStrings ms.keys).map (fun k => (k, index ms k))).Pairwise
      (fun a b => stringLess a.1 b.1 = true) := by
  rw [List.pairwise_map]
  exact sortStrings_strict ms.keys ms.nodup

theorem sortedEntries_unique (ms : GoMap Value) (es : List (String × Value))
    (hp : es.Perm ms.entries) (hs : es.Pairwise (fun a b => stringLess a.1 b.1 = true)) :
    es = (sortStrings ms.keys).map (fun k => (k, index ms k)) := by
  have hanti : IsAntisymm (String × Value) (fun a b => stringLess a.1 b.1 = true) :=
    ⟨fun a b h1 h2 => by
      have := charsLess_asymm _ _ h1
      unfold stringLess at h2
      rw [this] at h2
      cases h2⟩
  exact List.eq_of_perm_of_sorted (hp.trans (sortedEntries_perm ms).symm) hs
    (sortedEntries_strict ms)

/-! ## Lemmas on absent metrics -/

theorem intStep_withDefault (P : FlatSnapshot) (m : String) (h : P.Ints.get? m = none) :
    intStep (withDefault P m Kind.int) = intStep P := by
  funext out ki
  have hidx : ∀ k, indexInt (P.Ints.set m Int64.zero) k = indexInt P.Ints k := by
    intro k
    unfold indexInt
    rw [GoMap.get?_set]
    by_cases hk : k = m
    · subst hk
      simp [h]
    · simp [hk]
  simp only [intStep, intChanged, withDefault, hidx]

theorem floatStep_withDefault (P : FlatSnapshot) (m : String) (h : P.Floats.get? m = none) :
    floatStep (withDefault P m Kind.float) = floatStep P := by
  funext out kf
  have hidx : ∀ k, indexFloat (P.Floats.set m Float64.zero) k = indexFloat P.Floats k := by
    intro k
    unfold indexFloat
    rw [GoMap.get?_set]
    by_cases hk : k = m
    · subst hk
      simp [h]
    · simp [hk]
  simp only [floatStep, floatChanged, withDefault, hidx]

theorem boolStep_withDefault (P C : FlatSnapshot) (m : String) (h : P.Bools.get? m = none)
    (hv : C.Bools.get? m ≠ some false) (out : GoMap Value) (kb : String × Bool)
    (hmem : kb ∈ C.Bools.entries) :
    boolStep (withDefault P m Kind.bool) out kb = boolStep P out kb := by
  obtain ⟨k, b⟩ := kb
  have hc : boolChanged (withDefault P m Kind.bool) k b = boolChanged P k b := by
    rw [boolChanged_of_get?, boolChanged_of_get?]
    show (match (P.Bools.set m false).get? k with
      | some p => p != b
      | none => true) = _
    rw [GoMap.get?_set]
    by_cases hk : k = m
    · subst hk
      have hb : b ≠ false := by
        intro e
        subst e
        exact hv (C.Bools.get?_of_mem k false hmem)
      cases b with
      | false => exact absurd rfl hb
      | true => simp [h]
    · rw [if_neg hk]
  simp only [boolStep, hc]

theorem stringStep_withDefault (P C : FlatSnapshot) (m : String) (h : P.Strings.get? m = none)
    (hv : C.Strings.get? m ≠ some "") (out : GoMap Value) (ks : String × String)
    (hmem : ks ∈ C.Strings.entries) :
    stringStep (withDefault P m Kind.str) out ks = stringStep P out ks := by
  obtain ⟨k, s⟩ := ks
  have hc : stringChanged (withDefault P m Kind.str) k s = stringChanged P k s := by
    rw [stringChanged_of_get?, stringChanged_of_get?]
    show (match (P.Strings.set m "").get? k with
      | some p => p != s
      | none => true) = _
    rw [GoMap.get?_set]
    by_cases hk : k = m
    · subst hk
      have hs : s ≠ "" := by
        intro e
        subst e
        exact hv (C.Strings.get?_of_mem k "" hmem)
      have hs2 : ¬ ("" = s) := fun e => hs e.symm
      simp [h, hs2]
    · rw [if_neg hk]
  simp only [stringStep, hc]

theorem snapshotDelta_withDefault (P C : FlatSnapshot) (m : String) (k : Kind)
    (hP : AbsentInKind P m k) (hv : NotDefaultIn C m k) :
    snapshotDelta (withDefault P m k) C = snapshotDelta P C := by
  cases k with
  | bool =>
    unfold snapshotDelta
    simp only []
    rw [List.foldl_ext (boolStep (withDefault P m Kind.bool)) (boolStep P) GoMap.empty
      (fun out kb hmem => boolStep_withDefault P C m hP hv out kb hmem)]
    rfl
  | str =>
    unfold snapshotDelta
    simp only []
    rw [List.foldl_ext (stringStep (withDefault P m Kind.str)) (stringStep P) _
      (fun out ks hmem => stringStep_withDefault P C m hP hv out ks hmem)]
    rfl
  | int =>
    unfold snapshotDelta
    simp only []
    rw [intStep_withDefault P m hP]
    rfl
  | float =>
    unfold snapshotDelta
    simp only []
    rw [floatStep_withDefault P m hP]
    rfl

/-! ## Lemmas on the keys of the delta and on integer deltas -/

theorem overlay_eq_none_iff {β : Type} (cond : String → β → Bool) (val : String → β → Value)
    (cur : GoMap β) (n : String) (below : Option Value) :
    overlay cond val cur n below = none ↔
      below = none ∧ ∀ x, cur.get? n = some x → cond n x = false := by
  unfold overlay
  cases hg : cur.get? n with
  | none => simp
  | some x =>
    by_cases hc : cond n x
    · simp [hc]
    · simp [hc]

theorem snapshotDelta_get?_eq_none_iff (P C : FlatSnapshot) (n : String) :
    (snapshotDelta P C).get? n = none ↔
      (∀ b, C.Bools.get? n = some b → boolChanged P n b = false) ∧
      (∀ s, C.Strings.get? n = some s → stringChanged P n s = false) ∧
      (∀ i, C.Ints.get? n = some i → intChanged P n i = false) ∧
      (∀ f, C.Floats.get? n = some f → floatChanged P n f = false) := by
  rw [snapshotDelta_get?, overlay_eq_none_iff, overlay_eq_none_iff, overlay_eq_none_iff,
    overlay_eq_none_iff]
  tauto

theorem snapshotDelta_get?_of_not_in_cur (P C : FlatSnapshot) (n : String)
    (hB : C.Bools.get? n = none) (hS : C.Strings.get? n = none) (hI : C.Ints.get? n = none)
    (hF : C.Floats.get? n = none) : (snapshotDelta P C).get? n = none := by
  rw [snapshotDelta_get?_eq_none_iff]
  simp [hB, hS, hI, hF]

theorem GoMap.len_eq_zero_iff {α : Type} (m : GoMap α) :
    m.len = 0 ↔ ∀ n, m.get? n = none := by
  constructor
  · intro h n
    have : m.entries = [] := List.length_eq_zero.1 h
    simp [GoMap.get?, this]
  · intro h
    simp [GoMap.len, m.entries_eq_nil h]

theorem Int64.sub_ne_zero (a b : Int64) (h : a ≠ b) : Int64.sub a b ≠ Int64.zero := by
  intro e
  apply h
  apply Int64.eq_of_val_eq
  have h0 := congrArg Int64.val e
  have h1 := a.lo
  have h2 := a.hi
  have h3 := b.lo
  have h4 := b.hi
  simp only [Int64.sub, Int64.ofInt, wrapInt64, Int64.zero] at h0
  omega

theorem Int64.sub_self_eq (a : Int64) : Int64.sub a a = Int64.zero := by
  apply Int64.eq_of_val_eq
  simp only [Int64.sub, Int64.ofInt, wrapInt64, Int64.zero]
  omega

theorem Int64.add_sub_sub (c p d : Int64) :
    Int64.add (Int64.sub c p) (Int64.sub d c) = Int64.sub d p := by
  apply Int64.eq_of_val_eq
  simp only [Int64.sub, Int64.add, Int64.ofInt, wrapInt64]
  omega

theorem snapshotDelta_int_entry_ne_zero (P C : FlatSnapshot) (n : String) (v : Int64)
    (h : (snapshotDelta P C).get? n = some (Value.int v)) : v ≠ Int64.zero := by
  rw [snapshotDelta_get?] at h
  unfold overlay at h
  cases hF : C.Floats.get? n with
  | some f =>
    by_cases hc : floatChanged P n f
    · simp [hF, hc] at h
    · cases hI : C.Ints.get? n with
      | some i =>
        by_cases hi : intChanged P n i
        · simp only [hF, hc, hI, hi, if_true, Bool.false_eq_true, if_false] at h
          injection h with h
          injection h with h
          rw [← h]
          apply Int64.sub_ne_zero
          intro e
          simp [intChanged, e] at hi
        · cases hS : C.Strings.get? n with
          | some s =>
            by_cases hs : stringChanged P n s
            · simp [hF, hc, hI, hi, hS, hs] at h
            · cases hB : C.Bools.get? n with
              | some b => by_cases hb : boolChanged P n b <;> simp [hF, hc, hI, hi, hS, hs, hB, hb] at h
              | none => simp [hF, hc, hI, hi, hS, hs, hB] at h
          | none =>
            cases hB : C.Bools.get? n with
            | some b => by_cases hb : boolChanged P n b <;> simp [hF, hc, hI, hi, hS, hB, hb] at h
            | none => simp [hF, hc, hI, hi, hS, hB] at h
      | none =>
        cases hS : C.Strings.get? n with
        | some s =>
          by_cases hs : stringChanged P n s
          · simp [hF, hc, hI, hS, hs] at h
          · cases hB : C.Bools.get? n with
            | some b => by_cases hb : boolChanged P n b <;> simp [hF, hc, hI, hS, hs, hB, hb] at h
            | none => simp [hF, hc, hI, hS, hs, hB] at h
        | none =>
          cases hB : C.Bools.get? n with
          | some b => by_cases hb : boolChanged P n b <;> simp [hF, hc, hI, hS, hB, hb] at h
          | none => simp [hF, hc, hI, hS, hB] at h
  | none =>
    cases hI : C.Ints.get? n with
    | some i =>
      by_cases hi : intChanged P n i
      · simp only [hF, hI, hi, if_true] at h
        injection h with h
        injection h with h
        rw [← h]
        apply Int64.sub_ne_zero
        intro e
        simp [intChanged, e] at hi
      · cases hS : C.Strings.get? n with
        | some s =>
          by_cases hs : stringChanged P n s
          · simp [hF, hI, hi, hS, hs] at h
          · cases hB : C.Bools.get? n with
            | some b => by_cases hb : boolChanged P n b <;> simp [hF, hI, hi, hS, hs, hB, hb] at h
            | none => simp [hF, hI, hi, hS, hs, hB] at h
        | none =>
          cases hB : C.Bools.get? n with
          | some b => by_cases hb : boolChanged P n b <;> simp [hF, hI, hi, hS, hB, hb] at h
          | none => simp [hF, hI, hi, hS, hB] at h
    | none =>
      cases hS : C.Strings.get? n with
      | some s =>
        by_cases hs : stringChanged P n s
        · simp [hF, hI, hS, hs] at h
        · cases hB : C.Bools.get? n with
          | some b => by_cases hb : boolChanged P n b <;> simp [hF, hI, hS, hs, hB, hb] at h
          | none => simp [hF, hI, hS, hs, hB] at h
      | none =>
        cases hB : C.Bools.get? n with
        | some b => by_cases hb : boolChanged P n b <;> simp [hF, hI, hS, hB, hb] at h
        | none => simp [hF, hI, hS, hB] at h

theorem snapshotDelta_len_eq_zero_iff (P C : FlatSnapshot) :
    (snapshotDelta P C).len = 0 ↔ NothingChanged P C := by
  rw [GoMap.len_eq_zero_iff]
  unfold NothingChanged
  constructor
  · intro h
    refine ⟨fun n i hi => ?_, fun n b hb => ?_, fun n s hs => ?_, fun n f hf => ?_⟩
    · have := ((snapshotDelta_get?_eq_none_iff P C n).1 (h n)).2.2.1 i hi
      simp only [intChanged, bne_eq_false_iff_eq] at this
      exact this.symm
    · exact ((snapshotDelta_get?_eq_none_iff P C n).1 (h n)).1 b hb
    · exact ((snapshotDelta_get?_eq_none_iff P C n).1 (h n)).2.1 s hs
    · exact ((snapshotDelta_get?_eq_none_iff P C n).1 (h n)).2.2.2 f hf
  · rintro ⟨hI, hB, hS, hF⟩ n
    rw [snapshotDelta_get?_eq_none_iff]
    refine ⟨hB n, hS n, fun i hi => ?_, hF n⟩
    simp [intChanged, (hI n i hi)]

theorem intEntry_snapshotDelta (P C : FlatSnapshot) (hC : KindDisjoint C) (m : String)
    (c : Int64) (hc : C.Ints.get? m = some c) :
    intEntry (snapshotDelta P C) m = Int64.sub c (indexInt P.Ints m) := by
  unfold intEntry
  rw [snapshotDelta_get?_int P C hC m c hc]
  by_cases h : intChanged P m c
  · simp [h]
  · have : indexInt P.Ints m = c := by
      simpa [intChanged] using h
    simp [h, this, Int64.sub_self_eq]

theorem snapshotDelta_int_key (P C : FlatSnapshot) (hC : KindDisjoint C) (n : String)
    (i : Int64) (hi : C.Ints.get? n = some i) (hk : (snapshotDelta P C).contains n = true) :
    (snapshotDelta P C).get? n = some (Value.int (Int64.sub i (indexInt P.Ints n))) ∧
    Int64.sub i (indexInt P.Ints n) ≠ Int64.zero := by
  rw [GoMap.contains, snapshotDelta_get?_int P C hC n i hi] at hk
  rw [snapshotDelta_get?_int P C hC n i hi]
  by_cases hc : intChanged P n i
  · refine ⟨by simp [hc], Int64.sub_ne_zero _ _ ?_⟩
    intro e
    simp [intChanged, e] at hc
  · simp [hc] at hk

/-! ## Lemmas on the order of iteration -/

theorem stringLe_antisymm (a b : String) (h1 : stringLe a b = true) (h2 : stringLe b a = true) :
    a = b := by
  unfold stringLe stringLess at h1 h2
  simp only [Bool.not_eq_true'] at h1 h2
  exact String.ext (charsLess_trichotomy _ _ h2 h1)

instance stringLe_isAntisymm : IsAntisymm String (fun a b => stringLe a b = true) :=
  ⟨stringLe_antisymm⟩

theorem sortStrings_eq_of_perm (l1 l2 : List String) (h : l1.Perm l2) :
    sortStrings l1 = sortStrings l2 :=
  List.eq_of_perm_of_sorted
    (((sortStrings_perm l1).trans h).trans (sortStrings_perm l2).symm)
    (sortStrings_sorted l1) (sortStrings_sorted l2)

theorem get?_eq_of_perm {α : Type} (m1 m2 : GoMap α) (h : m1.entries.Perm m2.entries)
    (n : String) : m1.get? n = m2.get? n := by
  cases h1 : m1.get? n with
  | some v =>
    have hmem : (n, v) ∈ m2.entries := h.mem_iff.1 (mem_of_lookup m1.entries n v h1)
    exact (m2.get?_of_mem n v hmem).symm
  | none =>
    cases h2 : m2.get? n with
    | none => rfl
    | some v =>
      have hmem : (n, v) ∈ m1.entries := h.mem_iff.2 (mem_of_lookup m2.entries n v h2)
      rw [m1.get?_of_mem n v hmem] at h1
      cases h1

theorem formatMetrics_eq_of_perm (fmtFloat : Float64 → String) (d1 d2 : GoMap Value)
    (h : d1.entries.Perm d2.entries) : formatMetrics fmtFloat d1 = formatMetrics fmtFloat d2 := by
  rw [formatMetrics_eq_join, formatMetrics_eq_join,
    sortedEntries_unique d2 _ ((sortedEntries_perm d1).trans h) (sortedEntries_strict d1)]

theorem formatMetricsHttp_eq_of_perm (fmtFloat : Float64 → String) (d1 d2 : GoMap Value)
    (h : d1.entries.Perm d2.entries) :
    formatMetricsHttp fmtFloat d1 = formatMetricsHttp fmtFloat d2 :=
  formatMetricsHttp_congr fmtFloat d1 d2 (fun n _ => get?_eq_of_perm d1 d2 h n)

/-! ## Lemmas on the scheduler -/

theorem GoMap.len_eq_zero_iff_eq_empty {α : Type} (m : GoMap α) :
    m.len = 0 ↔ m = GoMap.empty := by
  constructor
  · intro h
    exact GoMap.eq_of_entries_eq (List.length_eq_zero.1 h)
  · intro h
    rw [h]
    rfl

theorem noMetrics_eq_formatMetricsHttp (fmtFloat : Float64 → String) :
    noMetrics = formatMetricsHttp fmtFloat GoMap.empty := by
  rw [formatMetricsHttp_eq_lines]
  rfl

theorem tick_globalstr (fmtFloat : Float64 → String) (period : Int)
    (st : FlatSnapshot × Process) (s : FlatSnapshot) :
    ∃ d : GoMap Value, (tick fmtFloat period st s).2.Globalstr = formatMetricsHttp fmtFloat d := by
  unfold tick
  by_cases h : (snapshotDelta st.1 s).len = 0
  · exact ⟨GoMap.empty, by simp only [h, if_true]; exact noMetrics_eq_formatMetricsHttp fmtFloat⟩
  · exact ⟨snapshotDelta st.1 s, by simp only [h, if_false]⟩

theorem schedulerStep_invariant (fmtFloat : Float64 → String) (period : Int) (cfg : Logging)
    (st : FlatSnapshot × Process) (e : Event) (h : ExposedInvariant fmtFloat st.2.Globalstr) :
    ExposedInvariant fmtFloat (schedulerStep fmtFloat period cfg st e).2.Globalstr := by
  cases e with
  | tick s =>
    unfold schedulerStep
    by_cases hd : disabled cfg.Metrics
    · simpa [hd] using h
    · simp only [hd, Bool.false_eq_true, if_false]
      exact Or.inr (tick_globalstr fmtFloat period st s)
  | totals a b u =>
    unfold schedulerStep LogTotalExpvars
    by_cases hd : disabled cfg.Metrics
    · simpa [hd] using h
    · simp only [hd, Bool.false_eq_true, if_false]
      exact Or.inr ⟨_, rfl⟩

theorem foldl_schedulerStep_invariant (fmtFloat : Float64 → String) (period : Int)
    (cfg : Logging) (events : List Event) (st : FlatSnapshot × Process)
    (h : ExposedInvariant fmtFloat st.2.Globalstr) :
    ExposedInvariant fmtFloat
      (events.foldl (schedulerStep fmtFloat period cfg) st).2.Globalstr := by
  induction events generalizing st with
  | nil => exact h
  | cons e rest ih =>
    rw [List.foldl_cons]
    exact ih _ (schedulerStep_invariant fmtFloat period cfg st e h)

theorem schedulerStep_block (fmtFloat : Float64 → String) (period : Int) (cfg : Logging)
    (hen : disabled cfg.Metrics = false) (st : FlatSnapshot × Process) (e : Event) :
    ∃ d : GoMap Value,
      (schedulerStep fmtFloat period cfg st e).2.Globalstr = formatMetricsHttp fmtFloat d := by
  cases e with
  | tick s =>
    unfold schedulerStep
    simp only [hen, Bool.false_eq_true, if_false]
    exact tick_globalstr fmtFloat period st s
  | totals a b u =>
    unfold schedulerStep LogTotalExpvars
    simp only [hen, Bool.false_eq_true, if_false]
    exact ⟨_, rfl⟩

theorem foldl_schedulerStep_block (fmtFloat : Float64 → String) (period : Int) (cfg : Logging)
    (hen : disabled cfg.Metrics = false) (events : List Event) (st : FlatSnapshot × Process)
    (h : ∃ d : GoMap Value, st.2.Globalstr = formatMetricsHttp fmtFloat d) :
    ∃ d : GoMap Value,
      (events.foldl (schedulerStep fmtFloat period cfg) st).2.Globalstr
        = formatMetricsHttp fmtFloat d := by
  induction events generalizing st with
  | nil => exact h
  | cons e rest ih =>
    rw [List.foldl_cons]
    exact ih _ (schedulerStep_block fmtFloat period cfg hen st e)

theorem scheduler_block (fmtFloat : Float64 → String) (period : Int) (cfg : Logging)
    (hen : disabled cfg.Metrics = false) (events : List Event) (hne : events ≠ []) :
    ∃ d : GoMap Value,
      (scheduler fmtFloat period cfg events).2.Globalstr = formatMetricsHttp fmtFloat d := by
  cases events with
  | nil => exact absurd rfl hne
  | cons e rest =>
    unfold scheduler
    rw [List.foldl_cons]
    exact foldl_schedulerStep_block fmtFloat period cfg hen rest _
      (schedulerStep_block fmtFloat period cfg hen _ e)

/-! ## The claims -/

/-- C1, as stated, fails: the snapshot whose float metric `x` is NaN has a
non-empty delta against itself, because `p != f` holds of two NaNs. -/
theorem snapshotDelta_self_nan :
    snapshotDelta nanSnapshot nanSnapshot ≠ GoMap.empty ∧
    (snapshotDelta nanSnapshot nanSnapshot).entries = [("x", Value.float Float64.nan)] := by
  refine ⟨fun h => ?_, by decide⟩
  have h2 := congrArg GoMap.entries h
  revert h2
  decide

/-- C1, amended: for every snapshot `S` none of whose float metrics is NaN
(any booleans, strings and integers), `snapshotDelta(S, S)` is the empty map. -/
theorem snapshotDelta_self (S : FlatSnapshot) (hnan : NoNaN S.Floats) :
    snapshotDelta S S = GoMap.empty :=
  GoMap.eq_of_entries_eq
    (GoMap.entries_eq_nil _ (fun n => snapshotDelta_self_get? S hnan n))

/-- C1, witness: the sample snapshot has no NaN and an empty delta against
itself. -/
theorem snapshotDelta_self_witness :
    NoNaN sampleSnapshot.Floats ∧ snapshotDelta sampleSnapshot sampleSnapshot = GoMap.empty :=
  ⟨by unfold NoNaN; decide, snapshotDelta_self sampleSnapshot (by unfold NoNaN; decide)⟩

/-- C2, as stated, fails: two snapshots that differ only in the integer metric
`libbeat.publisher.published_events`, 1 before and 3 after, and share the float
metric `system.load = NaN`, have a delta of two entries, not the one entry
`{libbeat.publisher.published_events: 2}`. -/
theorem snapshotDelta_one_int_nan :
    DiffersInOneInt (countAndLoad 1 Float64.nan) (countAndLoad 3 Float64.nan)
      "libbeat.publisher.published_events" (Int64.ofInt 2) ∧
    (snapshotDelta (countAndLoad 1 Float64.nan) (countAndLoad 3 Float64.nan)).entries
      ≠ [("libbeat.publisher.published_events", Value.int (Int64.ofInt 2))] ∧
    (snapshotDelta (countAndLoad 1 Float64.nan) (countAndLoad 3 Float64.nan)).entries
      = [("libbeat.publisher.published_events", Value.int (Int64.ofInt 2)),
         ("system.load", Value.float Float64.nan)] := by
  refine ⟨⟨fun _ => rfl, fun _ => rfl, fun _ => rfl, ?_, by decide, by decide⟩,
    by decide, by decide⟩
  intro n hn
  simp [countAndLoad, GoMap.get?, lookup_cons_eq, hn]

/-- C2, amended: for all snapshots `P` and `C` that differ only in one integer
metric `m`, with `C.Ints[m] = P.Ints[m] + k` in 64-bit arithmetic for a non-zero
`k` (positive or negative), and whose float metrics are not NaN,
`snapshotDelta(P, C)` is exactly the one-entry map `{m: k}`. -/
theorem snapshotDelta_one_int (P C : FlatSnapshot) (m : String) (k : Int64)
    (h : DiffersInOneInt P C m k) (hnan : NoNaN C.Floats) :
    (snapshotDelta P C).entries = [(m, Value.int k)] :=
  GoMap.entries_eq_singleton _ m (Value.int k)
    (by rw [snapshotDelta_get?_of_differsInOneInt P C m k h hnan m]; simp)
    (fun n hn => by rw [snapshotDelta_get?_of_differsInOneInt P C m k h hnan n]; simp [hn])

/-- C2, witness: the counter going from 7 to 4 beside an unchanged load of 1.5
gives the delta `{libbeat.publisher.published_events: -3}`. -/
theorem snapshotDelta_one_int_witness :
    DiffersInOneInt (countAndLoad 7 (Float64.fin false 1023 2251799813685248))
      (countAndLoad 4 (Float64.fin false 1023 2251799813685248))
      "libbeat.publisher.published_events" (Int64.ofInt (-3)) ∧
    (snapshotDelta (countAndLoad 7 (Float64.fin false 1023 2251799813685248))
      (countAndLoad 4 (Float64.fin false 1023 2251799813685248))).entries
      = [("libbeat.publisher.published_events", Value.int (Int64.ofInt (-3)))] :=
  have h : DiffersInOneInt (countAndLoad 7 (Float64.fin false 1023 2251799813685248))
      (countAndLoad 4 (Float64.fin false 1023 2251799813685248))
      "libbeat.publisher.published_events" (Int64.ofInt (-3)) :=
    ⟨fun _ => rfl, fun _ => rfl, fun _ => rfl,
      fun n hn => by simp [countAndLoad, GoMap.get?, lookup_cons_eq, hn],
      by decide, by decide⟩
  ⟨h, snapshotDelta_one_int _ _ _ _ h (by unfold NoNaN; decide)⟩

/-- C3: for every kind (integer, float, boolean, string), when the metric `m`
is absent from every map of `P` and present in `C`, in that kind only, with a
value `v` that is not the default of the kind, `snapshotDelta(P, C)` maps `m` to
`v` itself. -/
theorem snapshotDelta_new_metric (P C : FlatSnapshot) (m : String) (v : Value)
    (hP : AbsentFrom P m) (hC : PresentOnlyAs C m v) (hv : NonDefault v) :
    (snapshotDelta P C).get? m = some v :=
  snapshotDelta_get?_of_absent P C m v hP hC hv

/-- C3, witness: against the empty snapshot, the float `system.load = 1.5` of
the sample snapshot is reported as `1.5`. -/
theorem snapshotDelta_new_metric_witness :
    AbsentFrom MakeFlatSnapshot "system.load" ∧
    PresentOnlyAs sampleSnapshot "system.load"
      (Value.float (Float64.fin false 1023 2251799813685248)) ∧
    NonDefault (Value.float (Float64.fin false 1023 2251799813685248)) ∧
    (snapshotDelta MakeFlatSnapshot sampleSnapshot).get? "system.load"
      = some (Value.float (Float64.fin false 1023 2251799813685248)) :=
  ⟨by unfold AbsentFrom; decide, by unfold PresentOnlyAs; decide, by unfold NonDefault; decide,
    snapshotDelta_new_metric _ _ _ _ (by unfold AbsentFrom; decide)
      (by unfold PresentOnlyAs; decide) (by unfold NonDefault; decide)⟩

set_option maxRecDepth 100000 in
/-- C4, as stated, fails: in the delta whose whitelisted entry
`libbeat.publisher.published_events` is the two-line string `5\n6` and which
has the key `libbeat.publisher`, the status block has seven lines, and that
key, which is outside the whitelist, occurs in the block. -/
theorem formatMetricsHttp_two_line_value :
    (¬ ∃ fmtFloat, StatusBlockClaim fmtFloat twoLineDelta) ∧
    (∀ fmtFloat, (linesOf (formatMetricsHttp fmtFloat twoLineDelta)).map List.length = some 7) ∧
    ("libbeat.publisher" ∈ twoLineDelta.keys ∧ "libbeat.publisher" ∉ whitelist ∧
      ∀ fmtFloat, occursIn "libbeat.publisher".data
        (formatMetricsHttp fmtFloat twoLineDelta).data = true) := by
  have h1 : ∀ fmtFloat, sixLineBlock (formatMetricsHttp fmtFloat twoLineDelta) = false :=
    fun _ => rfl
  exact ⟨fun ⟨f, hf, _⟩ => (by rw [h1 f] at hf; cases hf), fun _ => rfl, by decide, by decide,
    fun _ => rfl⟩

/-- C4, amended: for every delta map `d` whose values under the six whitelist
names render without a newline, `formatMetricsHttp(d)` consists of exactly six
newline-terminated lines, the i-th line being the i-th of the six whitelist names
in ascending byte-wise order followed by `": "` and the value shown for that
name; no line is written for a key of `d` outside the whitelist. -/
theorem formatMetricsHttp_six_lines (fmtFloat : Float64 → String) (d : GoMap Value)
    (h : NewlineFree fmtFloat d) :
    sixLineBlock (formatMetricsHttp fmtFloat d) = true ∧
    linesOf (formatMetricsHttp fmtFloat d)
      = some (whitelist.map (fun n => n ++ ": " ++ httpValue fmtFloat d n)) ∧
    whitelist = sortStrings initialMkeys.keys ∧
    whitelist.Pairwise (fun a b => stringLess a b = true) :=
  ⟨sixLineBlock_formatMetricsHttp fmtFloat d h, linesOf_formatMetricsHttp fmtFloat d h,
    sortStrings_initialMkeys.symm, by decide⟩

/-- C4, witness: the example delta, two integers, renders without a newline
and its status block is a block of six lines. -/
theorem formatMetricsHttp_six_lines_witness :
    NewlineFree (fun _ => "NaN") exampleDelta ∧
    sixLineBlock (formatMetricsHttp (fun _ => "NaN") exampleDelta) = true :=
  ⟨by unfold NewlineFree; decide,
    (formatMetricsHttp_six_lines (fun _ => "NaN") exampleDelta
      (by unfold NewlineFree; decide)).1⟩

set_option maxRecDepth 100000 in
/-- C5: for every delta map `d`, `formatMetricsHttp(d)` is the six lines of the
whitelist names, and the line for the name `n` is
`n ++ ": " ++ printable(d[n]) ++ "\n"` when `n` is a key of `d`, and
`n ++ ": 0\n"` when `n` is not a key of `d`. The printable form is spelled out
kind by kind: an integer in decimal with its sign, a boolean as `true` or
`false`, a string verbatim, a float as the `fmt` package renders it; so for the
delta `{libbeat.publisher.published_events: 5, unrelated.counter: 3}` the block
ends with the line `libbeat.publisher.published_events: 5`. -/
theorem formatMetricsHttp_lines (fmtFloat : Float64 → String) (d : GoMap Value) :
    formatMetricsHttp fmtFloat d = String.join (whitelist.map (httpLine fmtFloat d)) ∧
    (∀ n v, d.get? n = some v →
      httpLine fmtFloat d n = n ++ ": " ++ sprintV fmtFloat v ++ "\n") ∧
    (∀ n, d.get? n = none → httpLine fmtFloat d n = n ++ ": 0\n") ∧
    (∀ n i, d.get? n = some (Value.int i) →
      httpLine fmtFloat d n
        = n ++ ": " ++ (if i.val < 0 then "-" ++ Nat.repr i.val.natAbs
            else Nat.repr i.val.natAbs) ++ "\n") ∧
    (∀ n, d.get? n = some (Value.bool true) → httpLine fmtFloat d n = n ++ ": true\n") ∧
    (∀ n, d.get? n = some (Value.bool false) → httpLine fmtFloat d n = n ++ ": false\n") ∧
    (∀ n s, d.get? n = some (Value.str s) → httpLine fmtFloat d n = n ++ ": " ++ s ++ "\n") ∧
    (∀ n f, d.get? n = some (Value.float f) →
      httpLine fmtFloat d n = n ++ ": " ++ fmtFloat f ++ "\n") ∧
    formatMetricsHttp fmtFloat exampleDelta
      = "libbeat.logstash.call_count.PublishEvents: 0\nlibbeat.logstash.publish.read_bytes: 0\nlibbeat.logstash.publish.write_bytes: 0\nlibbeat.logstash.published_and_acked_events: 0\nlibbeat.publisher.messages_in_worker_queues: 0\nlibbeat.publisher.published_events: 5\n" := by
  refine ⟨formatMetricsHttp_eq_lines fmtFloat d, ?_, ?_, ?_, ?_, ?_, ?_, ?_, rfl⟩
  · intro n v hv
    simp [httpLine, httpValue, hv]
  · intro n hn
    simp only [httpLine, httpValue, hn, String.append_assoc]
    rfl
  · intro n i hv
    simp only [httpLine, httpValue, hv, sprintV, formatInt]
  · intro n hv
    simp only [httpLine, httpValue, hv, sprintV, String.append_assoc]
    rfl
  · intro n hv
    simp only [httpLine, httpValue, hv, sprintV, String.append_assoc]
    rfl
  · intro n s hv
    simp only [httpLine, httpValue, hv, sprintV]
  · intro n f hv
    simp only [httpLine, httpValue, hv, sprintV]

set_option maxRecDepth 100000 in
/-- C6: `formatMetricsHttp` applied to the empty delta equals `noMetrics()`: the
canned all-zero block is byte for byte the formatter's output, line order
included. -/
theorem formatMetricsHttp_empty (fmtFloat : Float64 → String) :
    formatMetricsHttp fmtFloat GoMap.empty = noMetrics := by
  rfl

/-- C7: `formatMetrics(d)` is the empty string when `d` is empty; for every `d`
it is the concatenation, over the entries of `d` taken in strictly ascending
byte-wise order of their keys, of `" " ++ key ++ "=" ++ printable(d[key])`
(integers in decimal, booleans as true/false, strings verbatim), with one token
per key and nothing after the last token; there is one such order of the
entries, and every rearrangement of the entries in that order gives the output. -/
theorem formatMetrics_sorted_tokens (fmtFloat : Float64 → String) (d : GoMap Value) :
    (d.entries = [] → formatMetrics fmtFloat d = "") ∧
    (∃ es : List (String × Value),
      es.Perm d.entries ∧
      es.Pairwise (fun a b => stringLess a.1 b.1 = true) ∧
      formatMetrics fmtFloat d = String.join (es.map (logToken fmtFloat))) ∧
    (∀ es : List (String × Value),
      es.Perm d.entries → es.Pairwise (fun a b => stringLess a.1 b.1 = true) →
      formatMetrics fmtFloat d = String.join (es.map (logToken fmtFloat))) ∧
    (∀ k v, logToken fmtFloat (k, v) = " " ++ k ++ "=" ++ sprintV fmtFloat v) ∧
    (∀ i : Int64, sprintV fmtFloat (Value.int i)
      = if i.val < 0 then "-" ++ Nat.repr i.val.natAbs else Nat.repr i.val.natAbs) ∧
    sprintV fmtFloat (Value.bool true) = "true" ∧
    sprintV fmtFloat (Value.bool false) = "false" ∧
    (∀ s, sprintV fmtFloat (Value.str s) = s) := by
  refine ⟨?_, ⟨_, sortedEntries_perm d, sortedEntries_strict d,
    formatMetrics_eq_join fmtFloat d⟩, ?_, fun _ _ => rfl, fun _ => rfl, rfl, rfl, fun _ => rfl⟩
  · intro h
    rw [formatMetrics_eq_join]
    have : d.keys = [] := by simp [GoMap.keys, h]
    rw [this]
    rfl
  · intro es hp hs
    rw [formatMetrics_eq_join, sortedEntries_unique d es hp hs]

/-- C8: `formatMetricsHttp` ignores keys outside the whitelist: for all deltas
`d1` and `d2` that agree on the six whitelist names (same presence and same value
for each), `formatMetricsHttp(d1) = formatMetricsHttp(d2)`. -/
theorem formatMetricsHttp_ignores_other_keys (fmtFloat : Float64 → String)
    (d1 d2 : GoMap Value) (h : AgreeOnWhitelist d1 d2) :
    formatMetricsHttp fmtFloat d1 = formatMetricsHttp fmtFloat d2 :=
  formatMetricsHttp_congr fmtFloat d1 d2 h

/-- C8, witness: the example delta and the same delta without its unrelated
counter agree on the whitelist and have the same status block. -/
theorem formatMetricsHttp_ignores_other_keys_witness :
    AgreeOnWhitelist exampleDelta publishedOnly ∧
    ∀ fmtFloat, formatMetricsHttp fmtFloat exampleDelta
      = formatMetricsHttp fmtFloat publishedOnly :=
  ⟨by unfold AgreeOnWhitelist; decide,
    fun fmtFloat => formatMetricsHttp_ignores_other_keys fmtFloat exampleDelta publishedOnly
      (by unfold AgreeOnWhitelist; decide)⟩

/-- C9: for all snapshots `P` and `C`, the names of `C` kind-disjoint, and
every boolean (respectively string) metric name `n` in `C`: `n` is a key of
`snapshotDelta(P, C)` if and only if `n` is absent from `P`'s map of that kind
or `P`'s value differs from `C`'s value, and when it is a key its delta value is
`C`'s value. -/
theorem snapshotDelta_bool_string (P C : FlatSnapshot) (hC : KindDisjoint C) (n : String) :
    (∀ b, C.Bools.get? n = some b →
      ((snapshotDelta P C).contains n = true ↔
        (P.Bools.get? n = none ∨ ∃ p, P.Bools.get? n = some p ∧ p ≠ b)) ∧
      ((snapshotDelta P C).contains n = true →
        (snapshotDelta P C).get? n = some (Value.bool b))) ∧
    (∀ s, C.Strings.get? n = some s →
      ((snapshotDelta P C).contains n = true ↔
        (P.Strings.get? n = none ∨ ∃ p, P.Strings.get? n = some p ∧ p ≠ s)) ∧
      ((snapshotDelta P C).contains n = true →
        (snapshotDelta P C).get? n = some (Value.str s))) := by
  constructor
  · intro b hb
    rw [GoMap.contains, snapshotDelta_get?_bool P C hC n b hb, boolChanged_of_get?]
    cases hp : P.Bools.get? n with
    | none => simp
    | some p => by_cases hpb : p = b <;> simp [hpb]
  · intro s hs
    rw [GoMap.contains, snapshotDelta_get?_string P C hC n s hs, stringChanged_of_get?]
    cases hp : P.Strings.get? n with
    | none => simp
    | some p => by_cases hpb : p = s <;> simp [hpb]

/-- C9, witness: the sample snapshot is kind-disjoint, and against the empty
snapshot its boolean `beat.enabled` is a key of the delta, with value `true`. -/
theorem snapshotDelta_bool_string_witness :
    KindDisjoint sampleSnapshot ∧
    (snapshotDelta MakeFlatSnapshot sampleSnapshot).contains "beat.enabled" = true ∧
    (snapshotDelta MakeFlatSnapshot sampleSnapshot).get? "beat.enabled"
      = some (Value.bool true) :=
  have hC : KindDisjoint sampleSnapshot := by unfold KindDisjoint; decide
  have h := (snapshotDelta_bool_string MakeFlatSnapshot sampleSnapshot hC "beat.enabled").1
    true (by decide)
  ⟨hC, h.1.2 (Or.inl (by decide)), h.2 (h.1.2 (Or.inl (by decide)))⟩

/-- C10: for all snapshots `P` and `C`, the names of `C` kind-disjoint, and
every integer metric name `n` in `C`, writing `p` for `P.Ints[n]` if present and
0 otherwise: `n` is a key of `snapshotDelta(P, C)` if and only if
`C.Ints[n] != p`, and when it is a key its delta value is `C.Ints[n] - p`, the
64-bit difference (the exact difference whenever that fits in 64 bits); so a
counter unseen in `P` reports its full current value. -/
theorem snapshotDelta_int (P C : FlatSnapshot) (hC : KindDisjoint C) (n : String) (i : Int64)
    (hi : C.Ints.get? n = some i) :
    ((snapshotDelta P C).contains n = true ↔ i ≠ indexInt P.Ints n) ∧
    ((snapshotDelta P C).contains n = true →
      (snapshotDelta P C).get? n = some (Value.int (Int64.sub i (indexInt P.Ints n)))) ∧
    (-9223372036854775808 ≤ i.val - (indexInt P.Ints n).val →
      i.val - (indexInt P.Ints n).val < 9223372036854775808 →
      (Int64.sub i (indexInt P.Ints n)).val = i.val - (indexInt P.Ints n).val) ∧
    (P.Ints.get? n = none → Int64.sub i (indexInt P.Ints n) = i) := by
  refine ⟨?_, ?_, Int64.sub_val_of_fits _ _, ?_⟩
  · rw [GoMap.contains, snapshotDelta_get?_int P C hC n i hi]
    by_cases hc : indexInt P.Ints n = i
    · simp [intChanged, hc]
    · have : ¬ (i = indexInt P.Ints n) := fun e => hc e.symm
      simp [intChanged, hc, this]
  · rw [GoMap.contains, snapshotDelta_get?_int P C hC n i hi]
    by_cases hc : intChanged P n i <;> simp [hc]
  · intro hp
    simp [indexInt, hp, Int64.sub_zero_eq]

/-- C10, witness: against the empty snapshot, the counter
`libbeat.publisher.published_events = 5` of the sample snapshot is a key of the
delta and reports its full value 5. -/
theorem snapshotDelta_int_witness :
    KindDisjoint sampleSnapshot ∧
    (snapshotDelta MakeFlatSnapshot sampleSnapshot).contains
      "libbeat.publisher.published_events" = true ∧
    (snapshotDelta MakeFlatSnapshot sampleSnapshot).get? "libbeat.publisher.published_events"
      = some (Value.int (Int64.sub (Int64.ofInt 5)
          (indexInt MakeFlatSnapshot.Ints "libbeat.publisher.published_events"))) :=
  have hC : KindDisjoint sampleSnapshot := by unfold KindDisjoint; decide
  have h := snapshotDelta_int MakeFlatSnapshot sampleSnapshot hC
    "libbeat.publisher.published_events" (Int64.ofInt 5) (by decide)
  ⟨hC, h.1.2 (by decide), h.2.1 (h.1.2 (by decide))⟩

/-- C11, as stated, fails: the boolean `beat.enabled = false` is absent from the
empty snapshot and reported against it, and it is not reported against the
empty snapshot with `beat.enabled` set to `false`, the default of its kind. -/
theorem snapshotDelta_default_bool :
    AbsentFrom MakeFlatSnapshot "beat.enabled" ∧
    HasKind disabledBeat "beat.enabled" Kind.bool ∧
    snapshotDelta MakeFlatSnapshot disabledBeat
      ≠ snapshotDelta (withDefault MakeFlatSnapshot "beat.enabled" Kind.bool) disabledBeat ∧
    (snapshotDelta MakeFlatSnapshot disabledBeat).entries
      = [("beat.enabled", Value.bool false)] ∧
    (snapshotDelta (withDefault MakeFlatSnapshot "beat.enabled" Kind.bool) disabledBeat).entries
      = [] := by
  refine ⟨by unfold AbsentFrom; decide, by unfold HasKind; decide, fun h => ?_,
    by decide, by decide⟩
  have h2 := congrArg GoMap.entries h
  revert h2
  decide

/-- C11, amended: a metric absent from the previous snapshot is treated as
having the default previous value of its kind where the kind is integer or
float (0), and, where the kind is boolean or string, when its value in `C` is
not the default (`false`, `""`): for all `P`, `C` and every name `m` absent from
`P`'s map of the kind, `snapshotDelta(P', C)` equals `snapshotDelta(P, C)`, where
`P'` is `P` with `m` set to the default of the kind. -/
theorem snapshotDelta_absent_as_default (P C : FlatSnapshot) (m : String) (k : Kind)
    (hP : AbsentInKind P m k) (hv : NotDefaultIn C m k) :
    snapshotDelta (withDefault P m k) C = snapshotDelta P C :=
  snapshotDelta_withDefault P C m k hP hv

/-- C11, witness: the counter `libbeat.publisher.published_events = 5` of the
sample snapshot is reported alike against the empty snapshot and against the
empty snapshot with that counter set to 0. -/
theorem snapshotDelta_absent_as_default_witness :
    AbsentInKind MakeFlatSnapshot "libbeat.publisher.published_events" Kind.int ∧
    NotDefaultIn sampleSnapshot "libbeat.publisher.published_events" Kind.int ∧
    snapshotDelta (withDefault MakeFlatSnapshot "libbeat.publisher.published_events" Kind.int)
      sampleSnapshot = snapshotDelta MakeFlatSnapshot sampleSnapshot :=
  ⟨by unfold AbsentInKind; decide, trivial,
    snapshotDelta_absent_as_default _ _ _ _ (by unfold AbsentInKind; decide) trivial⟩

/-- C12: for all snapshots `P` and `C`, every key of `snapshotDelta(P, C)` is a
name present in one of `C`'s four maps (a metric that exists only in `P` is never
reported); in particular, for every `P`, an empty `C` gives the empty delta. -/
theorem snapshotDelta_keys_in_cur (P C : FlatSnapshot) :
    (∀ n, (snapshotDelta P C).contains n = true →
      C.Bools.contains n = true ∨ C.Strings.contains n = true ∨
      C.Ints.contains n = true ∨ C.Floats.contains n = true) ∧
    snapshotDelta P MakeFlatSnapshot = GoMap.empty := by
  refine ⟨fun n h => ?_, rfl⟩
  by_contra hno
  simp only [GoMap.contains, not_or, Option.isSome_iff_ne_none, ne_eq, not_not] at hno h
  exact h (snapshotDelta_get?_of_not_in_cur P C n hno.1 hno.2.1 hno.2.2.1 hno.2.2.2)

/-- C13: one tick of the periodic cycle, a step on the previous snapshot and
the process with the captured snapshot `s` as input: the new previous snapshot
is `s`; if `snapshotDelta(prev, s)` is empty the new Exposed State is
`noMetrics()` and the "no non-zero metrics" notice is logged, otherwise the new
Exposed State is `formatMetricsHttp(snapshotDelta(prev, s))` and the logged line
carries `formatMetrics(snapshotDelta(prev, s))`. -/
theorem tick_step (fmtFloat : Float64 → String) (period : Int) (prev : FlatSnapshot)
    (w : Process) (s : FlatSnapshot) :
    (tick fmtFloat period (prev, w) s).1 = s ∧
    (snapshotDelta prev s = GoMap.empty →
      (tick fmtFloat period (prev, w) s).2.Globalstr = noMetrics ∧
      (tick fmtFloat period (prev, w) s).2.log
        = w.log ++ [⟨"No non-zero metrics in the last %s", [LogArg.duration period]⟩]) ∧
    (snapshotDelta prev s ≠ GoMap.empty →
      (tick fmtFloat period (prev, w) s).2.Globalstr
        = formatMetricsHttp fmtFloat (snapshotDelta prev s) ∧
      (tick fmtFloat period (prev, w) s).2.log
        = w.log ++ [⟨"Non-zero metrics in the last %s:%s",
            [LogArg.duration period,
             LogArg.text (formatMetrics fmtFloat (snapshotDelta prev s))]⟩]) := by
  refine ⟨?_, ?_, ?_⟩
  · unfold tick
    by_cases h : (snapshotDelta prev s).len = 0 <;> simp [h]
  · intro he
    have h : (snapshotDelta prev s).len = 0 := (GoMap.len_eq_zero_iff_eq_empty _).2 he
    simp [tick, h, Info]
  · intro hne
    have h : ¬ (snapshotDelta prev s).len = 0 :=
      fun h0 => hne ((GoMap.len_eq_zero_iff_eq_empty _).1 h0)
    simp [tick, h, Info]

/-- C14: when reporting is disabled (`Enabled` is set and false), `logMetrics`
and `LogTotalExpvars` leave the Exposed State (`Globalstr`) unchanged, and
`logMetrics` does not log the "Metrics logging every" period notice: all it logs
is "Metrics logging disabled", and `LogTotalExpvars` logs nothing. -/
theorem disabled_leaves_globalstr (fmtFloat : Float64 → String) (defaultMetricsPeriod : Int)
    (metricsCfg : LoggingMetricsConfig) (cfg : Logging) (snapshots : List FlatSnapshot)
    (first second : FlatSnapshot) (uptime : Int) (w : Process)
    (hm : metricsCfg.Enabled = some false) (hc : cfg.Metrics.Enabled = some false) :
    (logMetrics fmtFloat defaultMetricsPeriod metricsCfg snapshots w).Globalstr = w.Globalstr ∧
    (logMetrics fmtFloat defaultMetricsPeriod metricsCfg snapshots w).log
      = w.log ++ [⟨"Metrics logging disabled", []⟩] ∧
    (∀ e ∈ (logMetrics fmtFloat defaultMetricsPeriod metricsCfg snapshots w).log,
      e ∉ w.log → e.format ≠ "Metrics logging every %s") ∧
    (LogTotalExpvars fmtFloat cfg first second uptime w).Globalstr = w.Globalstr ∧
    (LogTotalExpvars fmtFloat cfg first second uptime w).log = w.log := by
  have hd1 : disabled metricsCfg = true := by simp [disabled, hm]
  have hd2 : disabled cfg.Metrics = true := by simp [disabled, hc]
  have hlog : (logMetrics fmtFloat defaultMetricsPeriod metricsCfg snapshots w).log
      = w.log ++ [⟨"Metrics logging disabled", []⟩] := by
    simp [logMetrics, hd1, Info]
  refine ⟨by simp [logMetrics, hd1, Info], hlog, ?_, by simp [LogTotalExpvars, hd2],
    by simp [LogTotalExpvars, hd2]⟩
  intro e he hnew
  rw [hlog, List.mem_append] at he
  rcases he with he | he
  · exact absurd he hnew
  · rw [List.mem_singleton] at he
    rw [he]
    decide

/-- C14, witness: with the disabled configuration, three ticks and a totals
report leave the placeholder in `Globalstr`. -/
theorem disabled_leaves_globalstr_witness :
    disabledConfig.Metrics.Enabled = some false ∧
    (logMetrics (fun _ => "NaN") 30000000000 disabledConfig.Metrics
      [sampleSnapshot, published 1, published 2] initialProcess).Globalstr = "Preparing" ∧
    (LogTotalExpvars (fun _ => "NaN") disabledConfig sampleSnapshot sampleSnapshot 7
      initialProcess).Globalstr = "Preparing" :=
  have h := disabled_leaves_globalstr (fun _ => "NaN") 30000000000 disabledConfig.Metrics
    disabledConfig [sampleSnapshot, published 1, published 2] sampleSnapshot sampleSnapshot 7
    initialProcess rfl rfl
  ⟨rfl, h.1, h.2.2.2.1⟩

set_option maxRecDepth 100000 in
/-- C15, the code: when enabled, `LogTotalExpvars` logs the line of the delta of
its first capture and sets the Exposed State to the block of the delta of its
second capture. At a registry that changes between the two captures, the
counter `libbeat.publisher.published_events` being 1 at the first and 2 at the
second, the logged line says 1 and the Exposed State says 2: neither delta
gives both. -/
theorem LogTotalExpvars_two_captures :
    (∀ fmtFloat cfg first second uptime w, disabled cfg.Metrics = false →
      (LogTotalExpvars fmtFloat cfg first second uptime w).log
        = w.log ++ [⟨"Total non-zero values: %s",
            [LogArg.text (formatMetrics fmtFloat (snapshotDelta MakeFlatSnapshot first))]⟩,
           ⟨"Uptime: %s", [LogArg.duration uptime]⟩] ∧
      (LogTotalExpvars fmtFloat cfg first second uptime w).Globalstr
        = formatMetricsHttp fmtFloat (snapshotDelta MakeFlatSnapshot second)) ∧
    (∀ fmtFloat,
      (LogTotalExpvars fmtFloat defaultConfig (published 1) (published 2) 7 initialProcess).log
        = [⟨"Total non-zero values: %s",
            [LogArg.text (formatMetrics fmtFloat (snapshotDelta MakeFlatSnapshot (published 1)))]⟩,
           ⟨"Uptime: %s", [LogArg.duration 7]⟩]) ∧
    (∀ fmtFloat,
      (LogTotalExpvars fmtFloat defaultConfig (published 1) (published 2) 7
        initialProcess).Globalstr
        = formatMetricsHttp fmtFloat (snapshotDelta MakeFlatSnapshot (published 2))) ∧
    (∀ fmtFloat,
      formatMetrics fmtFloat (snapshotDelta MakeFlatSnapshot (published 1))
        = " libbeat.publisher.published_events=1" ∧
      formatMetrics fmtFloat (snapshotDelta MakeFlatSnapshot (published 2))
        = " libbeat.publisher.published_events=2") ∧
    (∀ fmtFloat,
      formatMetricsHttp fmtFloat (snapshotDelta MakeFlatSnapshot (published 1))
        ≠ formatMetricsHttp fmtFloat (snapshotDelta MakeFlatSnapshot (published 2))) := by
  refine ⟨fun f cfg a b u w hen => by simp [LogTotalExpvars, hen, Info],
    fun _ => rfl, fun _ => rfl, fun _ => ⟨rfl, rfl⟩, fun f h => ?_⟩
  have h1 : formatMetricsHttp f (snapshotDelta MakeFlatSnapshot (published 1))
      = "libbeat.logstash.call_count.PublishEvents: 0\nlibbeat.logstash.publish.read_bytes: 0\nlibbeat.logstash.publish.write_bytes: 0\nlibbeat.logstash.published_and_acked_events: 0\nlibbeat.publisher.messages_in_worker_queues: 0\nlibbeat.publisher.published_events: 1\n" := rfl
  have h2 : formatMetricsHttp f (snapshotDelta MakeFlatSnapshot (published 2))
      = "libbeat.logstash.call_count.PublishEvents: 0\nlibbeat.logstash.publish.read_bytes: 0\nlibbeat.logstash.publish.write_bytes: 0\nlibbeat.logstash.published_and_acked_events: 0\nlibbeat.publisher.messages_in_worker_queues: 0\nlibbeat.publisher.published_events: 2\n" := rfl
  rw [h1, h2] at h
  revert h
  decide

set_option maxRecDepth 100000 in
/-- C16: for the delta `{"libbeat.publisher.published_events": 5,
"unrelated.counter": 3}` (integer values), in either order of iteration:
`formatMetrics(d) = " libbeat.publisher.published_events=5 unrelated.counter=3"`,
and `formatMetricsHttp(d)` has the line `libbeat.publisher.published_events: 5`,
has `0` as the value of the other five whitelist names, and does not contain
`unrelated.counter`. -/
theorem example_delta_formats (fmtFloat : Float64 → String) :
    formatMetrics fmtFloat exampleDelta
      = " libbeat.publisher.published_events=5 unrelated.counter=3" ∧
    formatMetrics fmtFloat exampleDeltaSwapped
      = " libbeat.publisher.published_events=5 unrelated.counter=3" ∧
    linesOf (formatMetricsHttp fmtFloat exampleDelta)
      = some ["libbeat.logstash.call_count.PublishEvents: 0",
              "libbeat.logstash.publish.read_bytes: 0",
              "libbeat.logstash.publish.write_bytes: 0",
              "libbeat.logstash.published_and_acked_events: 0",
              "libbeat.publisher.messages_in_worker_queues: 0",
              "libbeat.publisher.published_events: 5"] ∧
    formatMetricsHttp fmtFloat exampleDeltaSwapped = formatMetricsHttp fmtFloat exampleDelta ∧
    occursIn "unrelated.counter".data (formatMetricsHttp fmtFloat exampleDelta).data = false :=
  ⟨rfl, rfl, rfl, rfl, rfl⟩

/-- C17: integer deltas telescope. For all snapshots `P`, `C`, `D`, the names of
`C` and of `D` kind-disjoint, and every integer metric `m` present in both
`C.Ints` and `D.Ints`, the delta of `m` in `snapshotDelta(P, C)` plus the delta of
`m` in `snapshotDelta(C, D)`, an absent entry counting as 0, equals
`D.Ints[m] - p` in 64-bit wraparound arithmetic, where `p` is `P.Ints[m]` or 0
when absent; that is, it equals the delta of `m` in `snapshotDelta(P, D)`. -/
theorem snapshotDelta_int_telescope (P C D : FlatSnapshot) (hC : KindDisjoint C)
    (hD : KindDisjoint D) (m : String) (c d : Int64) (hc : C.Ints.get? m = some c)
    (hd : D.Ints.get? m = some d) :
    Int64.add (intEntry (snapshotDelta P C) m) (intEntry (snapshotDelta C D) m)
      = Int64.sub d (indexInt P.Ints m) ∧
    Int64.add (intEntry (snapshotDelta P C) m) (intEntry (snapshotDelta C D) m)
      = intEntry (snapshotDelta P D) m := by
  have hcd : indexInt C.Ints m = c := by simp [indexInt, hc]
  rw [intEntry_snapshotDelta P C hC m c hc, intEntry_snapshotDelta C D hD m d hd,
    intEntry_snapshotDelta P D hD m d hd, hcd, Int64.add_sub_sub]
  exact ⟨rfl, rfl⟩

/-- C17, witness: the counter at 5, then 3, then 10: the deltas -2 and 7 of the
two steps add up to the delta 5 of the whole. -/
theorem snapshotDelta_int_telescope_witness :
    KindDisjoint (published 3) ∧ KindDisjoint (published 10) ∧
    Int64.add (intEntry (snapshotDelta (published 5) (published 3))
        "libbeat.publisher.published_events")
      (intEntry (snapshotDelta (published 3) (published 10))
        "libbeat.publisher.published_events")
      = intEntry (snapshotDelta (published 5) (published 10))
        "libbeat.publisher.published_events" :=
  have h3 : KindDisjoint (published 3) := by unfold KindDisjoint; decide
  have h10 : KindDisjoint (published 10) := by unfold KindDisjoint; decide
  ⟨h3, h10,
    (snapshotDelta_int_telescope (published 5) (published 3) (published 10) h3 h10
      "libbeat.publisher.published_events" (Int64.ofInt 3) (Int64.ofInt 10)
      (by decide) (by decide)).2⟩

/-- C18: no integer entry of a delta is zero: for all snapshots `P` and `C` and
every name `n`, if `n` is a key of `snapshotDelta(P, C)` with an integer value,
that value is non-zero, the subtraction being the 64-bit one (with kind-disjoint
names, the entry of an integer metric `n` of `C` is `C.Ints[n] - p`, non-zero); hence the "no
changes" branch (`len(delta) == 0`) is taken exactly when every integer in `C`
equals its previous-or-zero value and no boolean, string or float entry is
reported. -/
theorem snapshotDelta_no_zero_int (P C : FlatSnapshot) :
    (∀ n v, (snapshotDelta P C).get? n = some (Value.int v) → v ≠ Int64.zero) ∧
    (KindDisjoint C → ∀ n i, C.Ints.get? n = some i →
      (snapshotDelta P C).contains n = true →
      (snapshotDelta P C).get? n = some (Value.int (Int64.sub i (indexInt P.Ints n))) ∧
      Int64.sub i (indexInt P.Ints n) ≠ Int64.zero) ∧
    ((snapshotDelta P C).len = 0 ↔
      (∀ n i, C.Ints.get? n = some i → i = indexInt P.Ints n) ∧
      (∀ n b, C.Bools.get? n = some b → boolChanged P n b = false) ∧
      (∀ n s, C.Strings.get? n = some s → stringChanged P n s = false) ∧
      (∀ n f, C.Floats.get? n = some f → floatChanged P n f = false)) :=
  ⟨fun n v h => snapshotDelta_int_entry_ne_zero P C n v h,
    fun hC n i hi hk => snapshotDelta_int_key P C hC n i hi hk,
    snapshotDelta_len_eq_zero_iff P C⟩

/-- C19: both formatters are independent of map iteration order: for any two
enumerations (permutations of the key/value pairs, keys distinct) of the same
delta, `formatMetrics` returns the same string and `formatMetricsHttp` returns
the same string; the order in which `formatMetricsHttp` iterates over its own
map `mkeys` does not matter either. -/
theorem formatters_order_independent (fmtFloat : Float64 → String) (d1 d2 : GoMap Value)
    (h : d1.entries.Perm d2.entries) :
    formatMetrics fmtFloat d1 = formatMetrics fmtFloat d2 ∧
    formatMetricsHttp fmtFloat d1 = formatMetricsHttp fmtFloat d2 ∧
    (∀ pkeys : List String, pkeys.Perm initialMkeys.keys →
      sortStrings pkeys = sortStrings initialMkeys.keys) :=
  ⟨formatMetrics_eq_of_perm fmtFloat d1 d2 h, formatMetricsHttp_eq_of_perm fmtFloat d1 d2 h,
    fun pkeys hp => sortStrings_eq_of_perm pkeys initialMkeys.keys hp⟩

/-- C19, witness: the two orders of the example delta are permutations of one
another and give the same log line and the same status block. -/
theorem formatters_order_independent_witness :
    exampleDelta.entries.Perm exampleDeltaSwapped.entries ∧
    ∀ fmtFloat, formatMetrics fmtFloat exampleDelta = formatMetrics fmtFloat exampleDeltaSwapped ∧
      formatMetricsHttp fmtFloat exampleDelta = formatMetricsHttp fmtFloat exampleDeltaSwapped :=
  ⟨List.Perm.swap _ _ _, fun fmtFloat =>
    ⟨(formatters_order_independent fmtFloat exampleDelta exampleDeltaSwapped
        (List.Perm.swap _ _ _)).1,
      (formatters_order_independent fmtFloat exampleDelta exampleDeltaSwapped
        (List.Perm.swap _ _ _)).2.1⟩⟩

set_option maxRecDepth 100000 in
/-- C20, as stated, fails: after one tick that captures the string metric
`libbeat.publisher.published_events = "5\n6"`, the Exposed State is no longer
the placeholder and is not a six-line block: it has seven lines. -/
theorem scheduler_two_line_value :
    (∀ fmtFloat, (scheduler fmtFloat 30000000000 defaultConfig
        [Event.tick twoLineSnapshot]).2.Globalstr ≠ initialGlobalstr) ∧
    (∀ fmtFloat, sixLineBlock (scheduler fmtFloat 30000000000 defaultConfig
        [Event.tick twoLineSnapshot]).2.Globalstr = false) ∧
    (∀ fmtFloat, (linesOf (scheduler fmtFloat 30000000000 defaultConfig
        [Event.tick twoLineSnapshot]).2.Globalstr).map List.length = some 7) := by
  have hg : ∀ fmtFloat, (scheduler fmtFloat 30000000000 defaultConfig
      [Event.tick twoLineSnapshot]).2.Globalstr
      = "libbeat.logstash.call_count.PublishEvents: 0\nlibbeat.logstash.publish.read_bytes: 0\nlibbeat.logstash.publish.write_bytes: 0\nlibbeat.logstash.published_and_acked_events: 0\nlibbeat.publisher.messages_in_worker_queues: 0\nlibbeat.publisher.published_events: 5\n6\n" :=
    fun _ => rfl
  refine ⟨fun f h => ?_, fun f => ?_, fun f => ?_⟩
  · rw [hg f] at h
    revert h
    decide
  · rw [hg f]
    decide
  · rw [hg f]
    decide

/-- C20, amended: over every reachable state of the scheduler (any sequence of
periodic ticks and totals reports from the initial state), `Globalstr` is either
the initial placeholder `"Preparing"` or equals `formatMetricsHttp(d)` for some
delta `d`; hence, reporting being enabled, after the first completed tick or
report it is always the block of the six whitelist lines of some delta `d`, a
six-line block whenever the values it shows render without a newline. -/
theorem scheduler_invariant (fmtFloat : Float64 → String) (period : Int) (cfg : Logging)
    (events : List Event) :
    ExposedInvariant fmtFloat (scheduler fmtFloat period cfg events).2.Globalstr ∧
    (disabled cfg.Metrics = false → events ≠ [] →
      ∃ d : GoMap Value,
        (scheduler fmtFloat period cfg events).2.Globalstr = formatMetricsHttp fmtFloat d ∧
        (scheduler fmtFloat period cfg events).2.Globalstr
          = String.join (whitelist.map (httpLine fmtFloat d)) ∧
        (NewlineFree fmtFloat d →
          sixLineBlock (scheduler fmtFloat period cfg events).2.Globalstr = true)) := by
  refine ⟨foldl_schedulerStep_invariant fmtFloat period cfg events _ (Or.inl rfl), ?_⟩
  intro hen hne
  obtain ⟨d, hd⟩ := scheduler_block fmtFloat period cfg hen events hne
  refine ⟨d, hd, ?_, ?_⟩
  · rw [hd, formatMetricsHttp_eq_lines]
  · intro hnl
    rw [hd]
    exact sixLineBlock_formatMetricsHttp fmtFloat d hnl

/-- C20, witness: after a tick and a totals report of the enabled scheduler the
Exposed State is the status block of some delta. -/
theorem scheduler_invariant_witness :
    disabled defaultConfig.Metrics = false ∧
    ∃ d : GoMap Value,
      (scheduler (fun _ => "NaN") 30000000000 defaultConfig
        [Event.tick sampleSnapshot, Event.totals (published 1) (published 2) 7]).2.Globalstr
        = formatMetricsHttp (fun _ => "NaN") d :=
  ⟨rfl,
    match (scheduler_invariant (fun _ => "NaN") 30000000000 defaultConfig
      [Event.tick sampleSnapshot, Event.totals (published 1) (published 2) 7]).2 rfl
      (List.cons_ne_nil _ _) with
    | ⟨d, h, _⟩ => ⟨d, h⟩⟩

end Journalbeat
